import Mathlib

/-!
# Multi-Sensor Fusion and Persistent Object Tracking: verification development

Shallow embedding of `backend/sensors/fusion.py` (the `SensorFusion` engine
with its simplified `KalmanFilter`) and `backend/sensors/tracker.py`
(the SORT-style `ObjectTracker` with `TrackedObject` records).

Modelling conventions:
* Python floats are modelled by exact rationals (`ℚ`); the arithmetic of the
  source (`+`, `*`, `/`, `max`, `min`) is carried over literally.
* Python dicts (which preserve insertion order and have unique keys) are
  modelled as association lists; insertion replaces an existing binding in
  place or appends a fresh one at the end, exactly like a dict assignment.
* Raw detections are duck-typed dicts with optional keys `class`,
  `confidence`, `bbox`; they are modelled as a structure of `Option` fields,
  and every `d.get(key, default)` of the source becomes `Option.getD`.
* A bounding box is a 4-element list `[x, y, w, h]` in the source; it is
  modelled as a 4-field structure of rationals.
* Timestamp fields (`first_seen`, `last_seen`, reading timestamps) are wall
  clock values never consulted by any algorithmic decision in the source, so
  they are omitted from the state.
-/

namespace Sensors

/-- A bounding box `[x, y, w, h]` (image coordinates, width/height form). -/
structure Box where
  x : ℚ
  y : ℚ
  w : ℚ
  h : ℚ
  deriving DecidableEq, Repr

/-- Fallback box used by both engines for a detection without a bbox:
`[0, 0, 100, 100]` in the source. -/
def defaultBox : Box := ⟨0, 0, 100, 100⟩

/-- A raw detection: a loosely-typed dict with optional keys
`class`, `confidence`, `bbox`. -/
structure Detection where
  className : Option String
  confidence : Option ℚ
  bbox : Option Box
  deriving DecidableEq, Repr

/-- The fully-missing detection `{}` (every optional key absent). -/
def emptyDet : Detection := ⟨none, none, none⟩

/-- Python's built-in binary `max` on rationals, written as a conditional
so that closed computations reduce in the kernel. -/
def rmax (a b : ℚ) : ℚ := if a ≤ b then b else a

/-- Python's built-in binary `min` on rationals. -/
def rmin (a b : ℚ) : ℚ := if a ≤ b then a else b

/-- Shared body of `SensorFusion._calculate_iou` and `ObjectTracker._iou`:
the two source functions compute the identical expression
(intersection over union with a `union > 0` guard). -/
def iouCore (box1 box2 : Box) : ℚ :=
  let xi1 := rmax box1.x box2.x
  let yi1 := rmax box1.y box2.y
  let xi2 := rmin (box1.x + box1.w) (box2.x + box2.w)
  let yi2 := rmin (box1.y + box1.h) (box2.y + box2.h)
  let intersection := rmax 0 (xi2 - xi1) * rmax 0 (yi2 - yi1)
  let union := box1.w * box1.h + box2.w * box2.h - intersection
  if 0 < union then intersection / union else 0

/-- `SensorFusion._calculate_iou`: unpacks both boxes directly, no
absence guard (a `None` box would raise a `TypeError` in the source). -/
def calculateIou (box1 box2 : Box) : ℚ := iouCore box1 box2

/-- `SensorFusion._calculate_iou` lifted to possibly-absent boxes:
the source unpacks `x1, y1, w1, h1 = box1`, so an absent box raises;
the raised exception is modelled as `none`. -/
def calculateIouChecked : Option Box → Option Box → Option ℚ
  | some b1, some b2 => some (calculateIou b1 b2)
  | _, _ => none

/-- `ObjectTracker._iou`: same body as `SensorFusion._calculate_iou` but
guarded by `if not box1 or not box2: return 0`. -/
def trackerIou : Option Box → Option Box → ℚ
  | some b1, some b2 => iouCore b1 b2
  | _, _ => 0

/-! ## Association-list dictionaries -/

/-- Dict assignment `d[k] = v`: replace the first binding of `k` in place, or
append a fresh binding at the end (dicts preserve insertion order). -/
def dictInsert {α : Type} (l : List (String × α)) (k : String) (v : α) :
    List (String × α) :=
  match l with
  | [] => [(k, v)]
  | p :: rest => if p.1 = k then (k, v) :: rest else p :: dictInsert rest k v

/-- In-place mutation `f` of the value bound to `k` (used for
`self.tracks[track_id].field = ...` style updates). -/
def updateKey {α : Type} (l : List (String × α)) (k : String) (f : α → α) :
    List (String × α) :=
  match l with
  | [] => []
  | p :: rest => if p.1 = k then (p.1, f p.2) :: rest else p :: updateKey rest k f

/-- Dict lookup `d.get(k)`. -/
def lookupKey {α : Type} (l : List (String × α)) (k : String) : Option α :=
  match l with
  | [] => none
  | p :: rest => if p.1 = k then some p.2 else lookupKey rest k

/-! ## Kalman filter (`KalmanFilter` of fusion.py) -/

/-- `KalmanFilter` with its default `state_dim = 4` (the only dimension the
source ever instantiates): state `[x, y, vx, vy]` plus the covariance,
process-noise and measurement-noise matrices the constructor initialises
(no method of the source ever reads or writes them afterwards). -/
structure KalmanFilter where
  s0 : ℚ
  s1 : ℚ
  s2 : ℚ
  s3 : ℚ
  covariance : List (List ℚ)
  q : List (List ℚ)
  r : List (List ℚ)
  deriving DecidableEq, Repr

/-- `KalmanFilter.__init__` with the default `state_dim = 4`. -/
def kalmanInit : KalmanFilter where
  s0 := 0
  s1 := 0
  s2 := 0
  s3 := 0
  covariance := [[1, 0, 0, 0], [0, 1, 0, 0], [0, 0, 1, 0], [0, 0, 0, 1]]
  q := [[1/10, 0, 0, 0], [0, 1/10, 0, 0], [0, 0, 1/10, 0], [0, 0, 0, 1/10]]
  r := [[1, 0], [0, 1]]

/-- `KalmanFilter.predict`: `x += vx*dt`, `y += vy*dt`
(the `state_dim >= 4` guard always holds). -/
def kalmanPredict (kf : KalmanFilter) (dt : ℚ) : KalmanFilter :=
  { kf with s0 := kf.s0 + kf.s2 * dt, s1 := kf.s1 + kf.s3 * dt }

/-- The default `dt = 0.033` of `KalmanFilter.predict`. -/
def kalmanDt : ℚ := 33 / 1000

/-- `KalmanFilter.update`: blend position toward the measurement with fixed
weight `alpha = 0.7`; the velocity components are left untouched
(the "velocity estimation" branch of the source is `pass`). -/
def kalmanUpdate (kf : KalmanFilter) (mx my : ℚ) : KalmanFilter :=
  { kf with
    s0 := (7/10) * mx + (1 - 7/10) * kf.s0
    s1 := (7/10) * my + (1 - 7/10) * kf.s1 }

/-- `KalmanFilter.get_state`: `(x, y, vx, vy)` (dimension checks hold). -/
def kalmanGetState (kf : KalmanFilter) : ℚ × ℚ × ℚ × ℚ :=
  (kf.s0, kf.s1, kf.s2, kf.s3)

/-! ## Track id formatting -/

/-- The character of a decimal digit. -/
def digitChar (d : ℕ) : Char := Char.ofNat (48 + d)

/-- Decimal digit characters of `n`, least significant first, by structural
recursion on a fuel bound (`fuel ≥ n` suffices; empty for `n = 0`). -/
def natCharsRev : ℕ → ℕ → List Char
  | 0, _ => []
  | fuel + 1, n => if n = 0 then [] else digitChar (n % 10) :: natCharsRev fuel (n / 10)

/-- Decimal representation of `n` as characters (empty for `n = 0`). -/
def natChars (n : ℕ) : List Char := (natCharsRev n n).reverse

/-- Python zero-padded decimal formatting `f"{n:0{width}d}"` for `n ≥ 1`
(and `n = 0` when `width ≥ 1`). -/
def padNum (width n : ℕ) : List Char :=
  let cs := natChars n
  List.replicate (width - cs.length) '0' ++ cs

/-- Fusion-engine track id `f"T{n:04d}"`. -/
def fmtTrackId (n : ℕ) : String := String.mk ('T' :: padNum 4 n)

/-- Independent-tracker track id `f"OBJ-{n:05d}"`. -/
def fmtObjId (n : ℕ) : String := String.mk ('O' :: 'B' :: 'J' :: '-' :: padNum 5 n)

/-! ## Fusion Engine (`SensorFusion` of fusion.py) -/

/-- `FusedDetection` (a fused track). `position`/`velocity` dicts are
modelled by their `x`,`y` (resp. `vx`,`vy`,`vz`) components; the source
always writes `z = 0`. The source declares `bbox` optional but every track
the engine stores is assigned a concrete box at creation, so `bbox` is a
plain `Box` here (and the `if track.bbox:` truthiness guard of
`_match_detections` always passes). Wall-clock timestamps omitted. -/
structure FusedDetection where
  trackId : String
  posX : ℚ
  posY : ℚ
  velocity : Option (ℚ × ℚ × ℚ)
  className : String
  classConfidence : ℚ
  bbox : Box
  sensorSources : List String
  fusionConfidence : ℚ
  ageFrames : ℕ
  deriving DecidableEq, Repr

/-- `SensorFusion.iou_threshold = 0.3`. -/
def fusionIouThreshold : ℚ := 3 / 10

/-- `SensorFusion.max_age = 30`. -/
def fusionMaxAge : ℕ := 30

/-- `SensorFusion.min_hits = 3` (assigned by the constructor; no method of
the source ever reads it). -/
def fusionMinHits : ℕ := 3

/-- The mutable state of a `SensorFusion` instance. The values of the
`sensors` registry (`SensorData` records) are never read back by the engine
logic — only the key set is (for `active_sensors`) — so only keys are kept. -/
structure FusionState where
  sensors : List String
  tracks : List (String × FusedDetection)
  kalmanFilters : List (String × KalmanFilter)
  nextTrackId : ℕ
  deriving DecidableEq, Repr

/-- `SensorFusion.__init__`. -/
def fusionInit : FusionState :=
  { sensors := [], tracks := [], kalmanFilters := [], nextTrackId := 1 }

/-- A `SensorData` reading, restricted to the fields `SensorFusion.update`
consults: the sensor id and the raw detections. -/
structure SensorReading where
  sensorId : String
  detections : List Detection
  deriving DecidableEq, Repr

/-- Key effect of `self.sensors[sensor_id] = ...`: an existing key keeps its
position, a fresh key is appended. -/
def sensorsInsert (sensors : List String) (sid : String) : List String :=
  if sid ∈ sensors then sensors else sensors ++ [sid]

/-- `SensorFusion.register_sensor` (only the key set is observable). -/
def fusionRegisterSensor (st : FusionState) (sid : String) : FusionState :=
  { st with sensors := sensorsInsert st.sensors sid }

/-- Inner loop of `_match_detections`: scan the still-unmatched tracks for
the best IoU, keeping it only when it beats both the best so far and the
threshold (both comparisons strict). -/
def fusionBestTrack (tracks : List (String × FusedDetection)) (detBox : Box)
    (unmatchedTracks : List String) : ℚ × Option String :=
  unmatchedTracks.foldl
    (fun acc tid =>
      match lookupKey tracks tid with
      | none => acc
      | some track =>
          let iou := calculateIou detBox track.bbox
          if acc.1 < iou ∧ fusionIouThreshold < iou then (iou, some tid) else acc)
    (0, none)

/-- Outer loop of `_match_detections`: greedy, one pass over the detections
in submission order; a matched track is removed from the unmatched pool. -/
def fusionMatchLoop (tracks : List (String × FusedDetection)) :
    List Detection → List String →
    List (String × Detection) × List Detection × List String
  | [], unTr => ([], [], unTr)
  | det :: rest, unTr =>
    let detBox := det.bbox.getD defaultBox
    match (fusionBestTrack tracks detBox unTr).2 with
    | some tid =>
        let res := fusionMatchLoop tracks rest (unTr.erase tid)
        ((tid, det) :: res.1, res.2.1, res.2.2)
    | none =>
        let res := fusionMatchLoop tracks rest unTr
        (res.1, det :: res.2.1, res.2.2)

/-- `SensorFusion._match_detections` (its `sensor_id` parameter is unused by
the source body and omitted here). -/
def fusionMatchDetections (tracks : List (String × FusedDetection))
    (dets : List Detection) :
    List (String × Detection) × List Detection × List String :=
  if dets = [] ∨ tracks = [] then ([], dets, tracks.map Prod.fst)
  else fusionMatchLoop tracks dets (tracks.map Prod.fst)

/-- The `FusedDetection` literal built by `SensorFusion._create_track`. -/
def mkFusedTrack (det : Detection) (sensorId : String) (tid : String) :
    FusedDetection :=
  let bbox := det.bbox.getD defaultBox
  { trackId := tid
    posX := bbox.x + bbox.w / 2
    posY := bbox.y + bbox.h / 2
    velocity := none
    className := det.className.getD "unknown"
    classConfidence := det.confidence.getD (1/2)
    bbox := bbox
    sensorSources := [sensorId]
    fusionConfidence := det.confidence.getD (1/2)
    ageFrames := 0 }

/-- `SensorFusion._create_track`: allocate the next sequential id, store the
new track, and initialise its Kalman filter at the box centroid. -/
def fusionCreateTrack (st : FusionState) (det : Detection) (sensorId : String) :
    FusionState :=
  let tid := fmtTrackId st.nextTrackId
  let bbox := det.bbox.getD defaultBox
  let kf := { kalmanInit with s0 := bbox.x + bbox.w / 2, s1 := bbox.y + bbox.h / 2 }
  { st with
    nextTrackId := st.nextTrackId + 1
    tracks := dictInsert st.tracks tid (mkFusedTrack det sensorId tid)
    kalmanFilters := dictInsert st.kalmanFilters tid kf }

/-- Value-level body of `SensorFusion._update_track`: given the stored track
and its (optional) Kalman filter, produce the mutated pair. A missing
detection bbox falls back to the track's current bbox. -/
def fusionUpdatedTrack (track : FusedDetection) (kf : Option KalmanFilter)
    (det : Detection) (sensorId : String) : FusedDetection × Option KalmanFilter :=
  let bbox := det.bbox.getD track.bbox
  let step1 :=
    match kf with
    | some k =>
        let k2 := kalmanUpdate k (bbox.x + bbox.w / 2) (bbox.y + bbox.h / 2)
        ({ track with posX := k2.s0, posY := k2.s1,
                      velocity := some (k2.s2, k2.s3, 0) }, some k2)
    | none => (track, none)
  let track1 := step1.1
  let cc := rmax track1.classConfidence (det.confidence.getD (1/2))
  let sources :=
    if sensorId ∈ track1.sensorSources then track1.sensorSources
    else track1.sensorSources ++ [sensorId]
  ({ track1 with
      bbox := bbox
      classConfidence := cc
      ageFrames := 0
      sensorSources := sources
      fusionConfidence := rmin 1 ((sources.length : ℚ) * (3/10) + cc * (4/10)) },
   step1.2)

/-- `SensorFusion._update_track` applied to the engine state (the matched
`track_id` is always a live key; the impossible miss leaves the state). -/
def fusionUpdateTrack (st : FusionState) (tid : String) (det : Detection)
    (sensorId : String) : FusionState :=
  match lookupKey st.tracks tid with
  | none => st
  | some track =>
      let res := fusionUpdatedTrack track (lookupKey st.kalmanFilters tid) det sensorId
      { st with
        tracks := updateKey st.tracks tid (fun _ => res.1)
        kalmanFilters :=
          match res.2 with
          | some k => updateKey st.kalmanFilters tid (fun _ => k)
          | none => st.kalmanFilters }

/-- `SensorFusion._cleanup_tracks`: delete every track whose
`age_frames` exceeds `max_age`, together with its Kalman filter. -/
def fusionCleanup (st : FusionState) : FusionState :=
  let toRemove := (st.tracks.filter (fun p => fusionMaxAge < p.2.ageFrames)).map Prod.fst
  { st with
    tracks := st.tracks.filter (fun p => decide (p.1 ∉ toRemove))
    kalmanFilters := st.kalmanFilters.filter (fun p => decide (p.1 ∉ toRemove)) }

/-- The per-class base threat weight table of `_assess_threat_level`. -/
def threatClasses : List (String × ℚ) :=
  [("person", 2/10), ("vehicle", 3/10), ("aircraft", 5/10), ("weapon", 9/10)]

/-- Python `str.lower()` (all class names in play are ASCII). -/
def strLower (s : String) : String := String.mk (s.data.map Char.toLower)

/-- `SensorFusion._assess_threat_level`: maximum over live tracks of
class weight × fusion confidence, mapped to a label by thresholds. -/
def assessThreatLevel (tracks : List FusedDetection) : String :=
  let maxThreat := tracks.foldl
    (fun m t =>
      rmax m ((lookupKey threatClasses (strLower t.className)).getD (1/10) *
        t.fusionConfidence))
    0
  if 7/10 < maxThreat then "CRITICAL"
  else if 5/10 < maxThreat then "HIGH"
  else if 3/10 < maxThreat then "MEDIUM"
  else "LOW"

/-- `FusedOutput`, restricted to the fields the engine populates
(`timestamp` and the platform fields keep their defaults / `None`). -/
structure FusedOutput where
  detections : List FusedDetection
  visibilityEstimate : ℚ
  threatLevel : String
  activeSensors : List String
  degradedSensors : List String
  deriving DecidableEq, Repr

/-- `SensorFusion._build_output`: first advance every Kalman filter by one
`predict` step (a persistent state mutation), then assemble the snapshot
from the current tracks and sensor keys. -/
def fusionBuildOutput (st : FusionState) : FusedOutput × FusionState :=
  let st2 := { st with
    kalmanFilters := st.kalmanFilters.map (fun p => (p.1, kalmanPredict p.2 kalmanDt)) }
  ({ detections := st2.tracks.map Prod.snd
     visibilityEstimate := 1
     threatLevel := assessThreatLevel (st2.tracks.map Prod.snd)
     activeSensors := st2.sensors
     degradedSensors := [] }, st2)

/-- `SensorFusion.update`: register the reading's sensor, match detections
to tracks, update matched tracks, create tracks for unmatched detections,
age unmatched tracks, delete stale tracks, and build the output snapshot. -/
def fusionUpdate (st : FusionState) (reading : SensorReading) :
    FusedOutput × FusionState :=
  let st0 := { st with sensors := sensorsInsert st.sensors reading.sensorId }
  let res := fusionMatchDetections st0.tracks reading.detections
  let matched := res.1
  let unmatchedDets := res.2.1
  let unmatchedTracks := res.2.2
  let st1 := matched.foldl (fun s p => fusionUpdateTrack s p.1 p.2 reading.sensorId) st0
  let st2 := unmatchedDets.foldl (fun s d => fusionCreateTrack s d reading.sensorId) st1
  let st3 := { st2 with
    tracks := st2.tracks.map (fun p =>
      if p.1 ∈ unmatchedTracks then (p.1, { p.2 with ageFrames := p.2.ageFrames + 1 })
      else p) }
  let st4 := fusionCleanup st3
  fusionBuildOutput st4

/-- `SensorFusion.get_tracks`. -/
def fusionGetTracks (st : FusionState) : List FusedDetection := st.tracks.map Prod.snd

/-- `SensorFusion.get_track`. -/
def fusionGetTrack (st : FusionState) (tid : String) : Option FusedDetection :=
  lookupKey st.tracks tid

/-- States of a `SensorFusion` instance reachable from construction through
its public mutating entry points. -/
inductive FusionReachable : FusionState → Prop
  | init : FusionReachable fusionInit
  | register (s : FusionState) (sid : String) :
      FusionReachable s → FusionReachable (fusionRegisterSensor s sid)
  | step (s : FusionState) (reading : SensorReading) :
      FusionReachable s → FusionReachable (fusionUpdate s reading).2

/-! ## Independent Tracker (`ObjectTracker` of tracker.py) -/

/-- `TrackedObject`. `bbox` is always a concrete 4-element list in the
source (creation supplies a default), so it is a plain `Box` here and the
`if self.bbox:` truthiness guards of `predict`/`update` always pass.
Wall-clock timestamps omitted. -/
structure TrackedObject where
  trackId : String
  className : String
  confidence : ℚ
  bbox : Box
  velocity : ℚ × ℚ
  acceleration : ℚ × ℚ
  hits : ℕ
  misses : ℕ
  age : ℕ
  isConfirmed : Bool
  isLost : Bool
  predictedBbox : Option Box
  deriving DecidableEq, Repr

namespace TrackedObject

/-- `TrackedObject.predict` with its default `dt = 0.033`: shift the box
centroid by `velocity × dt`, keeping the size. -/
def predict (t : TrackedObject) : TrackedObject :=
  let cx := t.bbox.x + t.bbox.w / 2
  let cy := t.bbox.y + t.bbox.h / 2
  let ncx := cx + t.velocity.1 * kalmanDt
  let ncy := cy + t.velocity.2 * kalmanDt
  { t with predictedBbox := some ⟨ncx - t.bbox.w / 2, ncy - t.bbox.h / 2, t.bbox.w, t.bbox.h⟩ }

/-- `TrackedObject.update`: smooth the velocity from the centroid
displacement (weight `alpha = 0.3` on the new finite difference at a 30 Hz
cadence), refresh box/confidence/class with fallbacks to the current
values, bump hits and age, clear misses, and confirm once `hits >= 3`. -/
def update (t : TrackedObject) (det : Detection) : TrackedObject :=
  let newBbox := det.bbox.getD t.bbox
  let oldCx := t.bbox.x + t.bbox.w / 2
  let oldCy := t.bbox.y + t.bbox.h / 2
  let newCx := newBbox.x + newBbox.w / 2
  let newCy := newBbox.y + newBbox.h / 2
  let vel : ℚ × ℚ :=
    ((3/10) * (newCx - oldCx) * 30 + (1 - 3/10) * t.velocity.1,
     (3/10) * (newCy - oldCy) * 30 + (1 - 3/10) * t.velocity.2)
  let hits2 := t.hits + 1
  { t with
    velocity := vel
    bbox := newBbox
    confidence := det.confidence.getD t.confidence
    className := det.className.getD t.className
    hits := hits2
    misses := 0
    age := t.age + 1
    isConfirmed := if 3 ≤ hits2 then true else t.isConfirmed }

/-- `TrackedObject.mark_missed`: bump misses and age, adopt the predicted
box as current position when one exists, and flag the track lost once
`misses > 10` (a per-track literal, not the engine constant). -/
def markMissed (t : TrackedObject) : TrackedObject :=
  let misses2 := t.misses + 1
  { t with
    misses := misses2
    age := t.age + 1
    bbox := t.predictedBbox.getD t.bbox
    isLost := if 10 < misses2 then true else t.isLost }

end TrackedObject

/-- `ObjectTracker.iou_threshold = 0.25`. -/
def trackerIouThreshold : ℚ := 1 / 4

/-- `ObjectTracker.max_misses = 15` (assigned by the constructor; no method
of the source ever reads it — `mark_missed` hard-codes 10 instead). -/
def trackerMaxMisses : ℕ := 15

/-- `ObjectTracker.min_hits_to_confirm = 3` (assigned by the constructor;
`TrackedObject.update` hard-codes the literal 3 instead). -/
def trackerMinHits : ℕ := 3

/-- The mutable state of an `ObjectTracker` instance. -/
structure TrackerState where
  tracks : List (String × TrackedObject)
  nextId : ℕ
  deriving DecidableEq, Repr

/-- `ObjectTracker.__init__`. -/
def trackerInit : TrackerState := { tracks := [], nextId := 1 }

/-- The cost matrix of `ObjectTracker._match`: one row per track (in dict
order, using the predicted box when available), one column per detection;
cost `1 - IoU`. -/
def trackerCostMatrix (tracks : List (String × TrackedObject))
    (dets : List Detection) : List (List ℚ) :=
  tracks.map (fun p =>
    let trackBbox := p.2.predictedBbox.getD p.2.bbox
    dets.map (fun det => 1 - iouCore trackBbox (det.bbox.getD defaultBox)))

/-- One scan of the greedy loop of `ObjectTracker._match`: the strictly
smallest remaining cell among unmatched rows/columns, earliest row then
earliest remaining column on ties (`cost < min_cost` is strict). -/
def trackerScanMin (cm : List (List ℚ)) (trackIds : List String)
    (unmatchedTracks : List String) (unmatchedDets : List ℕ) :
    Option (ℚ × ℕ × ℕ) :=
  (List.range trackIds.length).foldl
    (fun acc i =>
      if trackIds.getD i "" ∈ unmatchedTracks then
        unmatchedDets.foldl
          (fun acc2 j =>
            let c := (cm.getD i []).getD j 0
            match acc2 with
            | none => some (c, i, j)
            | some best => if c < best.1 then some (c, i, j) else acc2)
          acc
      else acc)
    none

/-- The `while` loop of `ObjectTracker._match`: repeatedly accept the
globally cheapest remaining pair while its cost is within
`1 - iou_threshold`; each accepted pair removes one row and one column, so
`fuel = number of detections` never runs out before the loop condition
fails. -/
def trackerGreedyLoop (cm : List (List ℚ)) (trackIds : List String)
    (dets : List Detection) :
    ℕ → List (String × Detection) → List ℕ → List String →
    List (String × Detection) × List ℕ × List String
  | 0, matched, unDets, unTracks => (matched, unDets, unTracks)
  | fuel + 1, matched, unDets, unTracks =>
    if cm = [] ∨ unDets = [] ∨ unTracks = [] then (matched, unDets, unTracks)
    else
      match trackerScanMin cm trackIds unTracks unDets with
      | none => (matched, unDets, unTracks)
      | some best =>
          if 1 - trackerIouThreshold < best.1 then (matched, unDets, unTracks)
          else
            let tid := trackIds.getD best.2.1 ""
            trackerGreedyLoop cm trackIds dets fuel
              (matched ++ [(tid, dets.getD best.2.2 emptyDet)])
              (unDets.erase best.2.2) (unTracks.erase tid)

/-- `ObjectTracker._match`. -/
def trackerMatch (tracks : List (String × TrackedObject)) (dets : List Detection) :
    List (String × Detection) × List Detection × List String :=
  let unmatchedDets := List.range dets.length
  let unmatchedTracks := tracks.map Prod.fst
  if dets = [] ∨ tracks = [] then
    ([], unmatchedDets.map (fun i => dets.getD i emptyDet), unmatchedTracks)
  else
    let cm := trackerCostMatrix tracks dets
    let res := trackerGreedyLoop cm (tracks.map Prod.fst) dets dets.length
      [] unmatchedDets unmatchedTracks
    (res.1, res.2.1.map (fun i => dets.getD i emptyDet), res.2.2)

/-- The `TrackedObject` literal built by `ObjectTracker._create_track`
(all unlisted fields take their pydantic defaults). -/
def mkTrackedObject (det : Detection) (tid : String) : TrackedObject :=
  { trackId := tid
    className := det.className.getD "unknown"
    confidence := det.confidence.getD (1/2)
    bbox := det.bbox.getD defaultBox
    velocity := (0, 0)
    acceleration := (0, 0)
    hits := 1
    misses := 0
    age := 0
    isConfirmed := false
    isLost := false
    predictedBbox := none }

/-- `ObjectTracker._create_track`. -/
def trackerCreateTrack (st : TrackerState) (det : Detection) : TrackerState :=
  let tid := fmtObjId st.nextId
  { st with
    nextId := st.nextId + 1
    tracks := dictInsert st.tracks tid (mkTrackedObject det tid) }

/-- `ObjectTracker._cleanup`: drop every track flagged lost. -/
def trackerCleanup (st : TrackerState) : TrackerState :=
  { st with tracks := st.tracks.filter (fun p => !p.2.isLost) }

/-- `ObjectTracker.update`: predict all tracks, match, update matched,
create tracks for unmatched detections, mark unmatched tracks missed,
remove lost tracks, and return the confirmed non-lost tracks. -/
def trackerUpdate (st : TrackerState) (dets : List Detection) :
    List TrackedObject × TrackerState :=
  let st0 := { st with
    tracks := st.tracks.map (fun (p : String × TrackedObject) => (p.1, p.2.predict)) }
  let res := trackerMatch st0.tracks dets
  let matched := res.1
  let unmatchedDets := res.2.1
  let unmatchedTracks := res.2.2
  let st1 := { st0 with
    tracks := matched.foldl
      (fun ts (p : String × Detection) => updateKey ts p.1 (fun t => t.update p.2))
      st0.tracks }
  let st2 := unmatchedDets.foldl (fun s d => trackerCreateTrack s d) st1
  let st3 := { st2 with
    tracks := st2.tracks.map (fun (p : String × TrackedObject) =>
      if p.1 ∈ unmatchedTracks then (p.1, p.2.markMissed) else p) }
  let st4 := trackerCleanup st3
  ((st4.tracks.map Prod.snd).filter (fun t => t.isConfirmed && !t.isLost), st4)

/-- `ObjectTracker.get_track`. -/
def trackerGetTrack (st : TrackerState) (tid : String) : Option TrackedObject :=
  lookupKey st.tracks tid

/-- `ObjectTracker.get_all_tracks`. -/
def trackerGetAllTracks (st : TrackerState) : List TrackedObject :=
  st.tracks.map Prod.snd

/-- `ObjectTracker.get_confirmed_tracks`. -/
def trackerGetConfirmedTracks (st : TrackerState) : List TrackedObject :=
  (st.tracks.map Prod.snd).filter (fun t => t.isConfirmed && !t.isLost)

/-- `ObjectTracker.reset`: clear the tracks and restart the id counter. -/
def trackerReset (_st : TrackerState) : TrackerState :=
  { tracks := [], nextId := 1 }

/-- States of an `ObjectTracker` instance reachable from construction
through its public mutating entry points. -/
inductive TrackerReachable : TrackerState → Prop
  | init : TrackerReachable trackerInit
  | step (s : TrackerState) (dets : List Detection) :
      TrackerReachable s → TrackerReachable (trackerUpdate s dets).2
  | reset (s : TrackerState) :
      TrackerReachable s → TrackerReachable (trackerReset s)

/-! ## Predicates and auxiliary definitions used by the statements -/

/-- Two boxes do not overlap: the intersection rectangle computed by the
IoU routine is empty on the x or the y axis. -/
def boxesDisjoint (a b : Box) : Prop :=
  min (a.x + a.w) (b.x + b.w) ≤ max a.x b.x ∨
  min (a.y + a.h) (b.y + b.h) ≤ max a.y b.y

/-- A detection whose `confidence` field, when present, lies in `[0, 1]`. -/
def goodDet (d : Detection) : Bool :=
  match d.confidence with
  | none => true
  | some c => decide (0 ≤ c ∧ c ≤ 1)

/-- Every track of the fusion state has both confidence fields in `[0, 1]`. -/
def ConfBounded (st : FusionState) : Prop :=
  ∀ p ∈ st.tracks,
    0 ≤ p.2.classConfidence ∧ p.2.classConfidence ≤ 1 ∧
    0 ≤ p.2.fusionConfidence ∧ p.2.fusionConfidence ≤ 1

/-- Every track of the tracker state is confirmed exactly when its hit
count has reached the confirmation threshold 3. -/
def ConfirmedIffHits (st : TrackerState) : Prop :=
  ∀ p ∈ st.tracks, (p.2.isConfirmed = true ↔ 3 ≤ p.2.hits)

/-- Track-id bookkeeping: the live keys are distinct, and every live key
is a formatted index that was allocated strictly below the running counter
(which starts at 1 and only grows). -/
def KeysFormatted (fmt : ℕ → String) (keys : List String) (next : ℕ) : Prop :=
  keys.Nodup ∧ 1 ≤ next ∧ ∀ k ∈ keys, ∃ i, 1 ≤ i ∧ i < next ∧ k = fmt i

/-- Track-id bookkeeping invariant of the Fusion Engine. -/
def FusionIdInv (st : FusionState) : Prop :=
  KeysFormatted fmtTrackId (st.tracks.map Prod.fst) st.nextTrackId

/-- Track-id bookkeeping invariant of the Independent Tracker. -/
def TrackerIdInv (st : TrackerState) : Prop :=
  KeysFormatted fmtObjId (st.tracks.map Prod.fst) st.nextId

/-- Every Kalman filter of the fusion state carries zero velocity, and
every track reports either no velocity or the zero velocity vector. -/
def FusionZeroVelocity (st : FusionState) : Prop :=
  (∀ q ∈ st.kalmanFilters, q.2.s2 = 0 ∧ q.2.s3 = 0) ∧
  (∀ p ∈ st.tracks, p.2.velocity = none ∨ p.2.velocity = some (0, 0, 0))

/-- Per-class base threat weight, written as the spec's reference table:
person 0.2, vehicle 0.3, aircraft 0.5, weapon 0.9, any other class 0.1
(class matching is case-insensitive in the reference behavior). -/
def specThreatWeight (className : String) : ℚ :=
  if strLower className = "person" then 2/10
  else if strLower className = "vehicle" then 3/10
  else if strLower className = "aircraft" then 5/10
  else if strLower className = "weapon" then 9/10
  else 1/10

/-- The spec's threat score: maximum over all tracks of class weight times
fusion confidence (0 when there are no tracks). -/
def specMaxThreat (tracks : List FusedDetection) : ℚ :=
  (tracks.map (fun t => specThreatWeight t.className * t.fusionConfidence)).foldr max 0

/-- The spec's threshold mapping: `>0.7` CRITICAL, `>0.5` HIGH,
`>0.3` MEDIUM, else LOW. -/
def specThreatLabel (v : ℚ) : String :=
  if 7/10 < v then "CRITICAL"
  else if 5/10 < v then "HIGH"
  else if 3/10 < v then "MEDIUM"
  else "LOW"

/-- `n` consecutive `update` calls whose readings carry no detections. -/
def fusionRunEmpty (sid : String) : ℕ → FusionState → FusionState
  | 0, st => st
  | n + 1, st => fusionRunEmpty sid n (fusionUpdate st ⟨sid, []⟩).2

/-- Scenario A, first reading: sensor `cam1`, one detection
(class `person`, confidence 0.9, box `[10, 10, 20, 20]`). -/
def scenA_r1 : SensorReading :=
  ⟨"cam1", [⟨some "person", some (9/10), some ⟨10, 10, 20, 20⟩⟩]⟩

/-- Scenario A, second reading: sensor `radar1`, one detection at the
identical box (no other fields supplied). -/
def scenA_r2 : SensorReading :=
  ⟨"radar1", [⟨none, none, some ⟨10, 10, 20, 20⟩⟩]⟩

/-- Fusion state after the first Scenario A reading. -/
def scenA_s1 : FusionState := (fusionUpdate fusionInit scenA_r1).2

/-- Fusion state after both Scenario A readings. -/
def scenA_s2 : FusionState := (fusionUpdate scenA_s1 scenA_r2).2

/-- A detection whose confidence field lies outside `[0, 1]`. -/
def overConfDet : Detection := ⟨some "person", some (3/2), some ⟨0, 0, 10, 10⟩⟩

/-- A detection used to seed concrete tracker scenarios. -/
def seedDet : Detection := ⟨some "person", some (8/10), some ⟨0, 0, 50, 50⟩⟩

/-- A live (not yet lost) track that has already missed 10 frames. -/
def tenMissTrack : TrackedObject :=
  { mkTrackedObject seedDet "OBJ-00001" with misses := 10, age := 10 }

/-- Fusion state holding one track at box `[10, 10, 100, 100]`. -/
def offsetBoxState : FusionState :=
  (fusionUpdate fusionInit ⟨"cam1", [⟨some "person", some (9/10), some ⟨10, 10, 100, 100⟩⟩]⟩).2

/-- `offsetBoxState` after submitting the fully-missing detection `{}`
from the same sensor: the default matching box `[0, 0, 100, 100]` overlaps
the track's box well above the threshold, so the track is updated. -/
def offsetBoxState2 : FusionState :=
  (fusionUpdate offsetBoxState ⟨"cam1", [emptyDet]⟩).2

/-! # Theorems -/

/-! ## Geometry: intersection-over-union -/

theorem rmax_eq_max (a b : ℚ) : rmax a b = max a b := by
  rw [rmax]
  split_ifs with h
  · exact (max_eq_right h).symm
  · exact (max_eq_left (le_of_not_le h)).symm

theorem rmin_eq_min (a b : ℚ) : rmin a b = min a b := by
  rw [rmin]
  split_ifs with h
  · exact (min_eq_left h).symm
  · exact (min_eq_right (le_of_not_le h)).symm

theorem iouCore_def (a b : Box) :
    iouCore a b =
      if 0 < a.w * a.h + b.w * b.h -
            max 0 (min (a.x + a.w) (b.x + b.w) - max a.x b.x) *
            max 0 (min (a.y + a.h) (b.y + b.h) - max a.y b.y) then
        (max 0 (min (a.x + a.w) (b.x + b.w) - max a.x b.x) *
         max 0 (min (a.y + a.h) (b.y + b.h) - max a.y b.y)) /
        (a.w * a.h + b.w * b.h -
         max 0 (min (a.x + a.w) (b.x + b.w) - max a.x b.x) *
         max 0 (min (a.y + a.h) (b.y + b.h) - max a.y b.y))
      else 0 := by
  simp only [iouCore, rmax_eq_max, rmin_eq_min]

theorem iouCore_zero_of_nonpos_x (a b : Box)
    (h : min (a.x + a.w) (b.x + b.w) - max a.x b.x ≤ 0) : iouCore a b = 0 := by
  rw [iouCore_def, max_eq_left h]
  simp only [zero_mul, sub_zero]
  split_ifs <;> simp

theorem iouCore_zero_of_nonpos_y (a b : Box)
    (h : min (a.y + a.h) (b.y + b.h) - max a.y b.y ≤ 0) : iouCore a b = 0 := by
  rw [iouCore_def, max_eq_left h]
  simp only [mul_zero, sub_zero]
  split_ifs <;> simp

theorem iouCore_comm (a b : Box) : iouCore a b = iouCore b a := by
  rw [iouCore_def, iouCore_def, max_comm a.x b.x, max_comm a.y b.y,
    min_comm (a.x + a.w) (b.x + b.w), min_comm (a.y + a.h) (b.y + b.h),
    add_comm (a.w * a.h) (b.w * b.h)]

theorem iouCore_self (a : Box) (hw : 0 < a.w) (hh : 0 < a.h) :
    iouCore a a = 1 := by
  rw [iouCore_def]
  simp only [min_self, max_self, add_sub_cancel_left]
  rw [max_eq_right hw.le, max_eq_right hh.le]
  have hpos : 0 < a.w * a.h := mul_pos hw hh
  have hu : a.w * a.h + a.w * a.h - a.w * a.h = a.w * a.h := by ring
  rw [hu, if_pos hpos, div_self hpos.ne.symm]

theorem iouCore_bounds (a b : Box) : 0 ≤ iouCore a b ∧ iouCore a b ≤ 1 := by
  rw [iouCore_def]
  set fx := min (a.x + a.w) (b.x + b.w) - max a.x b.x with hfx
  set fy := min (a.y + a.h) (b.y + b.h) - max a.y b.y with hfy
  set i := max 0 fx * max 0 fy with hi
  have hi0 : 0 ≤ i := mul_nonneg (le_max_left 0 fx) (le_max_left 0 fy)
  set u := a.w * a.h + b.w * b.h - i with hu
  split_ifs with hpos
  · refine ⟨div_nonneg hi0 hpos.le, (div_le_one hpos).mpr ?_⟩
    rcases le_or_lt fx 0 with hx | hx
    · have : i = 0 := by rw [hi, max_eq_left hx, zero_mul]
      rw [this]; exact hpos.le
    rcases le_or_lt fy 0 with hy | hy
    · have : i = 0 := by rw [hi, max_eq_left hy, mul_zero]
      rw [this]; exact hpos.le
    · have hmx : max 0 fx = fx := max_eq_right hx.le
      have hmy : max 0 fy = fy := max_eq_right hy.le
      have hfxa : fx ≤ a.w := by
        have h1 : min (a.x + a.w) (b.x + b.w) ≤ a.x + a.w := min_le_left _ _
        have h2 : a.x ≤ max a.x b.x := le_max_left _ _
        rw [hfx]; linarith
      have hfxb : fx ≤ b.w := by
        have h1 : min (a.x + a.w) (b.x + b.w) ≤ b.x + b.w := min_le_right _ _
        have h2 : b.x ≤ max a.x b.x := le_max_right _ _
        rw [hfx]; linarith
      have hfya : fy ≤ a.h := by
        have h1 : min (a.y + a.h) (b.y + b.h) ≤ a.y + a.h := min_le_left _ _
        have h2 : a.y ≤ max a.y b.y := le_max_left _ _
        rw [hfy]; linarith
      have hfyb : fy ≤ b.h := by
        have h1 : min (a.y + a.h) (b.y + b.h) ≤ b.y + b.h := min_le_right _ _
        have h2 : b.y ≤ max a.y b.y := le_max_right _ _
        rw [hfy]; linarith
      have hia : i ≤ a.w * a.h := by
        rw [hi, hmx, hmy]
        exact mul_le_mul hfxa hfya hy.le (hx.le.trans hfxa)
      have hib : i ≤ b.w * b.h := by
        rw [hi, hmx, hmy]
        exact mul_le_mul hfxb hfyb hy.le (hx.le.trans hfxb)
      rw [hu]; linarith
  · exact ⟨le_refl 0, zero_le_one⟩

theorem iouCore_zero_of_degenerate (a b : Box)
    (h : a.w = 0 ∨ a.h = 0 ∨ b.w = 0 ∨ b.h = 0) : iouCore a b = 0 := by
  rcases h with h | h | h | h
  · apply iouCore_zero_of_nonpos_x
    have h1 : min (a.x + a.w) (b.x + b.w) ≤ a.x + a.w := min_le_left _ _
    have h2 : a.x ≤ max a.x b.x := le_max_left _ _
    linarith
  · apply iouCore_zero_of_nonpos_y
    have h1 : min (a.y + a.h) (b.y + b.h) ≤ a.y + a.h := min_le_left _ _
    have h2 : a.y ≤ max a.y b.y := le_max_left _ _
    linarith
  · apply iouCore_zero_of_nonpos_x
    have h1 : min (a.x + a.w) (b.x + b.w) ≤ b.x + b.w := min_le_right _ _
    have h2 : b.x ≤ max a.x b.x := le_max_right _ _
    linarith
  · apply iouCore_zero_of_nonpos_y
    have h1 : min (a.y + a.h) (b.y + b.h) ≤ b.y + b.h := min_le_right _ _
    have h2 : b.y ≤ max a.y b.y := le_max_right _ _
    linarith

/-- C4 counterexample: the Fusion Engine's `_calculate_iou` unpacks both
boxes without an absence guard, so on an absent box it raises (modelled as
`none`) instead of returning 0, contradicting "when either box is absent
or degenerate the result is 0" for that engine's function. -/
theorem claim_C4_counterexample :
    calculateIouChecked none (some defaultBox) = none ∧
    calculateIouChecked none (some defaultBox) ≠ some 0 := by
  exact ⟨rfl, by decide⟩

/-- C4 (amended): for the IoU computation shared by both engines on
present boxes: IoU of a positive-area box with itself is 1; IoU of
disjoint boxes is 0; IoU is symmetric; the result always lies in `[0,1]`;
a degenerate (zero-width or zero-height) box yields 0. The tracker's
`_iou` additionally returns 0 when either box is absent and agrees with
the fusion routine on present boxes; the fusion engine's `_calculate_iou`
raises on an absent box (it is never called with one). -/
theorem claim_C4 :
    (∀ a : Box, 0 < a.w → 0 < a.h → calculateIou a a = 1) ∧
    (∀ a b : Box, boxesDisjoint a b → calculateIou a b = 0) ∧
    (∀ a b : Box, calculateIou a b = calculateIou b a) ∧
    (∀ a b : Box, 0 ≤ calculateIou a b ∧ calculateIou a b ≤ 1) ∧
    (∀ a b : Box, a.w = 0 ∨ a.h = 0 ∨ b.w = 0 ∨ b.h = 0 → calculateIou a b = 0) ∧
    (∀ ob : Option Box, trackerIou none ob = 0 ∧ trackerIou ob none = 0) ∧
    (∀ a b : Box, trackerIou (some a) (some b) = calculateIou a b) := by
  refine ⟨fun a => iouCore_self a, ?_, fun a b => iouCore_comm a b,
    fun a b => iouCore_bounds a b, fun a b => iouCore_zero_of_degenerate a b,
    ?_, fun a b => rfl⟩
  · intro a b h
    rcases h with h | h
    · exact iouCore_zero_of_nonpos_x a b (by linarith)
    · exact iouCore_zero_of_nonpos_y a b (by linarith)
  · intro ob
    cases ob <;> exact ⟨rfl, rfl⟩

/-- C4 witness: the properties instantiated at concrete boxes. -/
theorem claim_C4_witness :
    ((0:ℚ) < 10 ∧ calculateIou ⟨0, 0, 10, 10⟩ ⟨0, 0, 10, 10⟩ = 1) ∧
    (boxesDisjoint ⟨0, 0, 1, 1⟩ ⟨5, 5, 1, 1⟩ ∧
      calculateIou ⟨0, 0, 1, 1⟩ ⟨5, 5, 1, 1⟩ = 0) ∧
    ((⟨1, 1, 2, 2⟩ : Box).h = 0 ∨ calculateIou ⟨0, 0, 0, 7⟩ ⟨1, 1, 2, 2⟩ = 0) :=
  ⟨⟨by norm_num, claim_C4.1 ⟨0, 0, 10, 10⟩ (by norm_num) (by norm_num)⟩,
   ⟨by unfold boxesDisjoint; norm_num,
    claim_C4.2.1 ⟨0, 0, 1, 1⟩ ⟨5, 5, 1, 1⟩ (by unfold boxesDisjoint; norm_num)⟩,
   Or.inr (claim_C4.2.2.2.2.1 ⟨0, 0, 0, 7⟩ ⟨1, 1, 2, 2⟩ (by norm_num))⟩

/-! ## Association-list helper lemmas -/

theorem mem_of_lookupKey {α : Type} {l : List (String × α)} {k : String} {v : α}
    (h : lookupKey l k = some v) : (k, v) ∈ l := by
  induction l with
  | nil => simp [lookupKey] at h
  | cons p rest ih =>
      rw [lookupKey] at h
      split_ifs at h with hk
      · cases h; cases p
        simp_all
      · exact List.mem_cons_of_mem _ (ih h)

theorem mem_dictInsert {α : Type} {l : List (String × α)} {k : String} {v : α}
    {p : String × α} (h : p ∈ dictInsert l k v) : p ∈ l ∨ p = (k, v) := by
  induction l with
  | nil => simp [dictInsert] at h; exact Or.inr h
  | cons q rest ih =>
      rw [dictInsert] at h
      split_ifs at h with hk
      · rcases List.mem_cons.mp h with h | h
        · exact Or.inr h
        · exact Or.inl (List.mem_cons_of_mem _ h)
      · rcases List.mem_cons.mp h with h | h
        · exact Or.inl (List.mem_cons.mpr (Or.inl h))
        · rcases ih h with h | h
          · exact Or.inl (List.mem_cons_of_mem _ h)
          · exact Or.inr h

theorem mem_updateKey {α : Type} {l : List (String × α)} {k : String}
    {f : α → α} {p : String × α} (h : p ∈ updateKey l k f) :
    p ∈ l ∨ ∃ q, q ∈ l ∧ p = (q.1, f q.2) := by
  induction l with
  | nil => simp [updateKey] at h
  | cons q rest ih =>
      rw [updateKey] at h
      split_ifs at h with hk
      · rcases List.mem_cons.mp h with h | h
        · exact Or.inr ⟨q, List.mem_cons_self _ _, h⟩
        · exact Or.inl (List.mem_cons_of_mem _ h)
      · rcases List.mem_cons.mp h with h | h
        · exact Or.inl (List.mem_cons.mpr (Or.inl h))
        · rcases ih h with h | ⟨r, hr, hp⟩
          · exact Or.inl (List.mem_cons_of_mem _ h)
          · exact Or.inr ⟨r, List.mem_cons_of_mem _ hr, hp⟩

theorem updateKey_map_fst {α : Type} (l : List (String × α)) (k : String)
    (f : α → α) : (updateKey l k f).map Prod.fst = l.map Prod.fst := by
  induction l with
  | nil => rfl
  | cons q rest ih =>
      rw [updateKey]
      split_ifs with hk
      · simp
      · simp [ih]

theorem dictInsert_of_not_mem {α : Type} {l : List (String × α)} {k : String}
    (h : k ∉ l.map Prod.fst) (v : α) : dictInsert l k v = l ++ [(k, v)] := by
  induction l with
  | nil => rfl
  | cons q rest ih =>
      rw [dictInsert]
      simp only [List.map_cons, List.mem_cons] at h
      push_neg at h
      rw [if_neg (fun hq => h.1 hq.symm), ih h.2]
      rfl

/-! ## Scenario A (C3) -/

/-- C3: starting from an empty Fusion Engine, the `cam1` reading with one
detection (person, 0.9, box `[10,10,20,20]`) creates track `T0001` with
sources `["cam1"]` and fusion confidence 0.9; the `radar1` reading at the
identical box matches it (IoU 1 exceeds the 0.3 threshold), leaving
sources `["cam1","radar1"]` and the strictly larger fusion confidence
0.96. -/
theorem claim_C3 :
    (fusionGetTrack scenA_s1 "T0001").map FusedDetection.sensorSources = some ["cam1"] ∧
    (fusionGetTrack scenA_s1 "T0001").map FusedDetection.fusionConfidence = some (9/10) ∧
    (fusionGetTrack scenA_s2 "T0001").map FusedDetection.sensorSources =
      some ["cam1", "radar1"] ∧
    (fusionGetTrack scenA_s2 "T0001").map FusedDetection.fusionConfidence =
      some (24/25) ∧
    (9/10 : ℚ) < 24/25 ∧
    calculateIou ⟨10, 10, 20, 20⟩ ⟨10, 10, 20, 20⟩ = 1 ∧
    fusionIouThreshold < 1 := by
  refine ⟨?_, ?_, ?_, ?_, ?_, ?_, ?_⟩ <;> with_unfolding_all decide

/-! ## Confidence clamping (C1) -/

/-- C1 counterexample: a detection with confidence 1.5 creates a track
whose class confidence and fusion confidence are both 1.5, outside
`[0, 1]` — track creation performs no clamping. -/
theorem claim_C1_counterexample :
    (fusionGetTrack (fusionUpdate fusionInit ⟨"cam1", [overConfDet]⟩).2 "T0001").map
        FusedDetection.classConfidence = some (3/2) ∧
    (fusionGetTrack (fusionUpdate fusionInit ⟨"cam1", [overConfDet]⟩).2 "T0001").map
        FusedDetection.fusionConfidence = some (3/2) ∧
    ¬ ((3/2 : ℚ) ≤ 1) := by
  refine ⟨?_, ?_, ?_⟩ <;> with_unfolding_all decide

/-! ## Lost-track threshold (C2) -/

/-- C2 counterexample: a track with 10 misses becomes lost on the very
next miss (misses = 11), although 11 does not exceed the engine-level
`max_misses` constant 15 — the per-track miss handler hard-codes 10. -/
theorem claim_C2_counterexample :
    tenMissTrack.isLost = false ∧
    tenMissTrack.markMissed.isLost = true ∧
    tenMissTrack.markMissed.misses = 11 ∧
    ¬ (trackerMaxMisses < tenMissTrack.markMissed.misses) := by
  refine ⟨?_, ?_, ?_, ?_⟩ <;> with_unfolding_all decide

/-- C2 (amended): `mark_missed` flags a track lost exactly once its miss
count exceeds the per-track threshold 10 (not the engine-level
`max_misses = 15`); a lost track never appears in
`get_confirmed_tracks()`, and the cleanup at the end of every `update`
call removes all lost tracks from the live set. -/
theorem claim_C2_amended :
    (∀ t : TrackedObject,
      t.markMissed.isLost = (t.isLost || decide (10 < t.misses + 1))) ∧
    (∀ t : TrackedObject, t.markMissed.misses = t.misses + 1) ∧
    (∀ st ds, ∀ p ∈ (trackerUpdate st ds).2.tracks, p.2.isLost = false) ∧
    (∀ st, ∀ t ∈ trackerGetConfirmedTracks st, t.isLost = false) := by
  refine ⟨?_, fun t => rfl, ?_, ?_⟩
  · intro t
    simp only [TrackedObject.markMissed]
    split_ifs with h <;> simp [h]
  · intro st ds p hp
    have hp2 : p ∈ ((trackerUpdate st ds).2).tracks := hp
    rw [trackerUpdate] at hp2
    simp only [trackerCleanup] at hp2
    have := (List.mem_filter.mp hp2).2
    simpa using this
  · intro st t ht
    have := (List.mem_filter.mp ht).2
    simp only [Bool.and_eq_true, Bool.not_eq_true'] at this
    exact this.2

/-- C2 witness: the amended per-update guarantee at a concrete state. -/
theorem claim_C2_witness :
    ∃ p, p ∈ (trackerUpdate trackerInit [seedDet]).2.tracks ∧ p.2.isLost = false := by
  refine ⟨("OBJ-00001", mkTrackedObject seedDet "OBJ-00001"), ?_, ?_⟩
  · with_unfolding_all decide
  · exact claim_C2_amended.2.2.1 trackerInit [seedDet]
      ("OBJ-00001", mkTrackedObject seedDet "OBJ-00001") (by with_unfolding_all decide)

/-! ## Malformed-input defaults (C6) -/

/-- C6 counterexample: a matched detection with no bounding box falls back
to the track's current box, not to the fixed default `[0,0,100,100]`: a
track at `[10,10,100,100]` updated with the fully-missing detection keeps
`[10,10,100,100]`. Likewise the tracker's per-track update falls back to
the track's current confidence (0.8), not to 0.5. -/
theorem claim_C6_counterexample :
    (fusionGetTrack offsetBoxState2 "T0001").map FusedDetection.bbox =
      some ⟨10, 10, 100, 100⟩ ∧
    (⟨10, 10, 100, 100⟩ : Box) ≠ defaultBox ∧
    ((mkTrackedObject seedDet "OBJ-00001").update emptyDet).confidence = 8/10 ∧
    (8/10 : ℚ) ≠ 1/2 := by
  refine ⟨?_, ?_, ?_, ?_⟩ <;> with_unfolding_all decide

/-- C6 (amended): at track creation (and during matching) both engines
default a missing bbox to `[0,0,100,100]`, a missing confidence to 0.5 and
a missing class to `"unknown"`; when updating an already-matched track, a
missing bbox falls back to the track's current box in both engines, a
missing confidence falls back to 0.5 in the Fusion Engine but to the
track's current confidence in the Tracker, and a missing class keeps the
track's current class in the Tracker; no operation raises — every call is
total and returns a well-formed record. -/
theorem claim_C6_amended :
    (∀ sid tid, mkFusedTrack emptyDet sid tid =
      ⟨tid, 50, 50, none, "unknown", 1/2, defaultBox, [sid], 1/2, 0⟩) ∧
    (∀ tid, mkTrackedObject emptyDet tid =
      ⟨tid, "unknown", 1/2, defaultBox, (0, 0), (0, 0), 1, 0, 0, false, false, none⟩) ∧
    (∀ track kf sid,
      (fusionUpdatedTrack track kf emptyDet sid).1.bbox = track.bbox ∧
      (fusionUpdatedTrack track kf emptyDet sid).1.classConfidence =
        rmax track.classConfidence (1/2)) ∧
    (∀ t : TrackedObject,
      (t.update emptyDet).bbox = t.bbox ∧
      (t.update emptyDet).confidence = t.confidence ∧
      (t.update emptyDet).className = t.className) := by
  refine ⟨?_, ?_, ?_, ?_⟩
  · intro sid tid
    with_unfolding_all rfl
  · intro tid
    with_unfolding_all rfl
  · intro track kf sid
    cases kf <;> exact ⟨rfl, rfl⟩
  · intro t
    exact ⟨rfl, rfl, rfl⟩

/-! ## Track id uniqueness (C9) -/

/-- C9 counterexample: `tracker.reset()` restarts the id counter at 1, so
the first track created before the reset and the first track created
after it both carry the id `OBJ-00001` — ids are reused across resets. -/
theorem claim_C9_counterexample :
    (trackerUpdate trackerInit [seedDet]).2.tracks.map Prod.fst = ["OBJ-00001"] ∧
    (trackerReset (trackerUpdate trackerInit [seedDet]).2).nextId = 1 ∧
    (trackerUpdate (trackerReset (trackerUpdate trackerInit [seedDet]).2)
      [seedDet]).2.tracks.map Prod.fst = ["OBJ-00001"] := by
  refine ⟨?_, ?_, ?_⟩ <;> with_unfolding_all decide

/-! ## Threat assessment (C8) -/

theorem foldr_max_shift (l : List ℚ) : ∀ a b : ℚ,
    l.foldr max (max a b) = max b (l.foldr max a) := by
  induction l with
  | nil => intro a b; exact max_comm a b
  | cons x xs ih =>
      intro a b
      simp only [List.foldr_cons, ih a b, max_left_comm]

theorem foldl_max_eq_foldr (l : List ℚ) : ∀ a : ℚ,
    l.foldl max a = l.foldr max a := by
  induction l with
  | nil => intro a; rfl
  | cons x xs ih =>
      intro a
      rw [List.foldl_cons, List.foldr_cons, ih (max a x), foldr_max_shift]

theorem threatWeight_eq_spec (name : String) :
    (lookupKey threatClasses (strLower name)).getD (1/10) = specThreatWeight name := by
  simp only [threatClasses, lookupKey, specThreatWeight]
  by_cases h1 : strLower name = "person"
  · simp [h1]
  · rw [if_neg (fun h => h1 h.symm), if_neg h1]
    by_cases h2 : strLower name = "vehicle"
    · simp [h2]
    · rw [if_neg (fun h => h2 h.symm), if_neg h2]
      by_cases h3 : strLower name = "aircraft"
      · simp [h3]
      · rw [if_neg (fun h => h3 h.symm), if_neg h3]
        by_cases h4 : strLower name = "weapon"
        · simp [h4]
        · rw [if_neg (fun h => h4 h.symm), if_neg h4]
          rfl

theorem assessThreatLevel_eq_spec (l : List FusedDetection) :
    assessThreatLevel l = specThreatLabel (specMaxThreat l) := by
  have hfun : (fun (m : ℚ) (t : FusedDetection) =>
      rmax m ((lookupKey threatClasses (strLower t.className)).getD (1/10) *
        t.fusionConfidence)) =
      fun m t => max m (specThreatWeight t.className * t.fusionConfidence) := by
    funext m t
    rw [rmax_eq_max, threatWeight_eq_spec]
  have hmax : l.foldl
      (fun (m : ℚ) t =>
        rmax m ((lookupKey threatClasses (strLower t.className)).getD (1/10) *
          t.fusionConfidence)) 0 = specMaxThreat l := by
    rw [hfun, specMaxThreat, ← foldl_max_eq_foldr, List.foldl_map]
  simp only [assessThreatLevel, specThreatLabel, hmax]

/-- C8: every `update` call's returned threat level is the label of the
maximum, over the returned track snapshot, of per-class base weight
(person 0.2, vehicle 0.3, aircraft 0.5, weapon 0.9, other 0.1) times the
track's fusion confidence, thresholded at 0.7/0.5/0.3; and the snapshot
used is exactly the engine's current (post-call) track set, so the result
carries no history. -/
theorem claim_C8 (st : FusionState) (reading : SensorReading) :
    (fusionUpdate st reading).1.threatLevel =
      specThreatLabel (specMaxThreat (fusionUpdate st reading).1.detections) ∧
    (fusionUpdate st reading).1.detections =
      fusionGetTracks (fusionUpdate st reading).2 := by
  exact ⟨assessThreatLevel_eq_spec _, rfl⟩

/-! ## Track aging and cleanup (C7) -/

theorem eq_of_nodup_keys {α : Type} {l : List (String × α)}
    (h : (l.map Prod.fst).Nodup) {p q : String × α}
    (hp : p ∈ l) (hq : q ∈ l) (hk : p.1 = q.1) : p = q := by
  induction l with
  | nil => cases hp
  | cons r rest ih =>
      rw [List.map_cons, List.nodup_cons] at h
      rcases List.mem_cons.mp hp with hp1 | hp1 <;>
        rcases List.mem_cons.mp hq with hq1 | hq1
      · rw [hp1, hq1]
      · exfalso
        apply h.1
        rw [← hp1, hk]
        exact List.mem_map_of_mem Prod.fst hq1
      · exfalso
        apply h.1
        rw [← hq1, ← hk]
        exact List.mem_map_of_mem Prod.fst hp1
      · exact ih h.2 hp1 hq1

theorem fusionCleanup_tracks_mem {st : FusionState} {p : String × FusedDetection}
    (hp : p ∈ (fusionCleanup st).tracks) :
    p ∈ st.tracks ∧ p.2.ageFrames ≤ fusionMaxAge := by
  simp only [fusionCleanup] at hp
  have h1 := (List.mem_filter.mp hp).1
  have h2 := (List.mem_filter.mp hp).2
  refine ⟨h1, ?_⟩
  by_contra hage
  push_neg at hage
  have hin : p.1 ∈ ((st.tracks.filter
      (fun q => fusionMaxAge < q.2.ageFrames)).map Prod.fst) := by
    exact List.mem_map_of_mem Prod.fst (List.mem_filter.mpr ⟨h1, by simpa using hage⟩)
  rw [decide_eq_true_eq] at h2
  exact h2 hin

theorem fusionCleanup_tracks_mem_of_fresh {st : FusionState}
    (hnd : (st.tracks.map Prod.fst).Nodup) {p : String × FusedDetection}
    (hp : p ∈ st.tracks) (hage : p.2.ageFrames ≤ fusionMaxAge) :
    p ∈ (fusionCleanup st).tracks := by
  simp only [fusionCleanup]
  refine List.mem_filter.mpr ⟨hp, ?_⟩
  rw [decide_eq_true_eq]
  intro hin
  rcases List.mem_map.mp hin with ⟨q, hq, hkey⟩
  have hq1 := (List.mem_filter.mp hq).1
  have hq2 := (List.mem_filter.mp hq).2
  rw [decide_eq_true_eq] at hq2
  have : p = q := eq_of_nodup_keys hnd hp hq1 hkey.symm
  rw [this] at hage
  omega

theorem fusionCleanup_kf_mem {st : FusionState} {q : String × KalmanFilter}
    (hq : q ∈ (fusionCleanup st).kalmanFilters) :
    ∀ t, (q.1, t) ∈ st.tracks → t.ageFrames ≤ fusionMaxAge := by
  simp only [fusionCleanup] at hq
  have h2 := (List.mem_filter.mp hq).2
  rw [decide_eq_true_eq] at h2
  intro t ht
  by_contra hage
  push_neg at hage
  apply h2
  exact List.mem_map_of_mem Prod.fst
    (List.mem_filter.mpr ⟨ht, by simpa using hage⟩)

theorem fusionUpdate_empty_tracks_mem {st : FusionState} {sid : String}
    {p : String × FusedDetection}
    (hp : p ∈ (fusionUpdate st ⟨sid, []⟩).2.tracks) :
    (∃ q ∈ st.tracks,
      p = (q.1, { q.2 with ageFrames := q.2.ageFrames + 1 })) ∧
    p.2.ageFrames ≤ fusionMaxAge := by
  simp only [fusionUpdate, fusionMatchDetections, fusionBuildOutput,
    List.foldl_nil, eq_self_iff_true, true_or, if_true] at hp
  obtain ⟨hmem, hage⟩ := fusionCleanup_tracks_mem hp
  refine ⟨?_, hage⟩
  rcases List.mem_map.mp hmem with ⟨q, hq, hpq⟩
  have hkey : q.1 ∈ st.tracks.map Prod.fst := List.mem_map_of_mem Prod.fst hq
  rw [if_pos hkey] at hpq
  exact ⟨q, hq, hpq.symm⟩

theorem fusionRunEmpty_age {sid : String} : ∀ (n : ℕ) (st : FusionState),
    ∀ p ∈ (fusionRunEmpty sid n st).tracks,
      ∃ q ∈ st.tracks, p.2.ageFrames = q.2.ageFrames + n := by
  intro n
  induction n with
  | zero => intro st p hp; exact ⟨p, hp, rfl⟩
  | succ m ih =>
      intro st p hp
      rw [fusionRunEmpty] at hp
      obtain ⟨q1, hq1, hpq1⟩ := ih (fusionUpdate st ⟨sid, []⟩).2 p hp
      obtain ⟨⟨q0, hq0, hq01⟩, _⟩ := fusionUpdate_empty_tracks_mem hq1
      refine ⟨q0, hq0, ?_⟩
      have hq1age : q1.2.ageFrames = q0.2.ageFrames + 1 := by rw [hq01]
      rw [hpq1, hq1age]
      omega

theorem fusionRunEmpty_age_le {sid : String} : ∀ (m : ℕ) (st : FusionState),
    ∀ p ∈ (fusionRunEmpty sid (m + 1) st).tracks, p.2.ageFrames ≤ fusionMaxAge := by
  intro m
  induction m with
  | zero =>
      intro st p hp
      rw [fusionRunEmpty, fusionRunEmpty] at hp
      exact (fusionUpdate_empty_tracks_mem hp).2
  | succ k ih =>
      intro st p hp
      rw [fusionRunEmpty] at hp
      exact ih (fusionUpdate st ⟨sid, []⟩).2 p hp

/-- C7: the Fusion Engine's cleanup keeps exactly the tracks whose
age-in-frames has not exceeded the maximum 30 (deleting stale tracks
together with their Kalman filters), and a track that goes 30 consecutive
update cycles with no matching detection is gone from `get_tracks()` after
the next call: 31 consecutive detection-free update calls leave the track
set empty. -/
theorem claim_C7 :
    (∀ st : FusionState, ∀ p ∈ (fusionCleanup st).tracks,
      p ∈ st.tracks ∧ p.2.ageFrames ≤ fusionMaxAge) ∧
    (∀ st : FusionState, (st.tracks.map Prod.fst).Nodup →
      ∀ p ∈ st.tracks, p.2.ageFrames ≤ fusionMaxAge →
        p ∈ (fusionCleanup st).tracks) ∧
    (∀ st : FusionState, ∀ q ∈ (fusionCleanup st).kalmanFilters,
      ∀ t, (q.1, t) ∈ st.tracks → t.ageFrames ≤ fusionMaxAge) ∧
    (∀ sid (st : FusionState), fusionGetTracks (fusionRunEmpty sid 31 st) = []) := by
  refine ⟨fun st p hp => fusionCleanup_tracks_mem hp,
    fun st hnd p hp hage => fusionCleanup_tracks_mem_of_fresh hnd hp hage,
    fun st q hq => fusionCleanup_kf_mem hq, ?_⟩
  intro sid st
  have hempty : (fusionRunEmpty sid 31 st).tracks = [] := by
    rw [List.eq_nil_iff_forall_not_mem]
    intro p hp
    obtain ⟨q, _, hage⟩ := fusionRunEmpty_age 31 st p hp
    have hle : p.2.ageFrames ≤ fusionMaxAge := fusionRunEmpty_age_le 30 st p hp
    rw [fusionMaxAge] at hle
    omega
  rw [fusionGetTracks, hempty]
  rfl

/-- C7 witness: the hypotheses discharged at a concrete state — the one
track of `scenA_s1` (age 0) survives cleanup, and 31 detection-free calls
empty the track set. -/
theorem claim_C7_witness :
    Prod.mk "T0001"
        (FusedDetection.mk "T0001" 20 20 none "person" (9/10) ⟨10, 10, 20, 20⟩
          ["cam1"] (9/10) 0) ∈ (fusionCleanup scenA_s1).tracks ∧
    fusionGetTracks (fusionRunEmpty "cam1" 31 scenA_s1) = [] :=
  ⟨claim_C7.2.1 scenA_s1 (by with_unfolding_all decide)
      (Prod.mk "T0001"
        (FusedDetection.mk "T0001" 20 20 none "person" (9/10) ⟨10, 10, 20, 20⟩
          ["cam1"] (9/10) 0))
      (by with_unfolding_all decide) (by with_unfolding_all decide),
   claim_C7.2.2.2 "cam1" scenA_s1⟩

/-! ## Tracker per-track invariant machinery -/

theorem forall_mem_updateKey {α : Type} {P : α → Prop}
    {l : List (String × α)} {k : String} {f : α → α}
    (hl : ∀ p ∈ l, P p.2) (hf : ∀ x, P x → P (f x)) :
    ∀ p ∈ updateKey l k f, P p.2 := by
  intro p hp
  rcases mem_updateKey hp with h | ⟨q, hq, hpq⟩
  · exact hl p h
  · rw [hpq]
    exact hf q.2 (hl q hq)

theorem forall_mem_dictInsert {α : Type} {P : α → Prop}
    {l : List (String × α)} {k : String} {v : α}
    (hl : ∀ p ∈ l, P p.2) (hv : P v) : ∀ p ∈ dictInsert l k v, P p.2 := by
  intro p hp
  rcases mem_dictInsert hp with h | h
  · exact hl p h
  · rw [h]
    exact hv

theorem forall_mem_foldl_trackerUpd {P : TrackedObject → Prop}
    (hupd : ∀ t d, P t → P (t.update d)) :
    ∀ (ms : List (String × Detection)) (ts : List (String × TrackedObject)),
      (∀ p ∈ ts, P p.2) →
      ∀ p ∈ ms.foldl
        (fun ts (m : String × Detection) =>
          updateKey ts m.1 (fun t => t.update m.2)) ts, P p.2 := by
  intro ms
  induction ms with
  | nil => intro ts hts; exact hts
  | cons m rest ih =>
      intro ts hts
      rw [List.foldl_cons]
      exact ih _ (forall_mem_updateKey hts (fun x hx => hupd x m.2 hx))

theorem forall_mem_foldl_trackerCreate {P : TrackedObject → Prop}
    (hnew : ∀ d tid, P (mkTrackedObject d tid)) :
    ∀ (ds : List Detection) (st : TrackerState),
      (∀ p ∈ st.tracks, P p.2) →
      ∀ p ∈ (ds.foldl (fun s d => trackerCreateTrack s d) st).tracks, P p.2 := by
  intro ds
  induction ds with
  | nil => intro st hst; exact hst
  | cons d rest ih =>
      intro st hst
      rw [List.foldl_cons]
      apply ih
      exact forall_mem_dictInsert hst (hnew d (fmtObjId st.nextId))

theorem trackerUpdate_tracks_forall {P : TrackedObject → Prop}
    (hpred : ∀ t, P t → P t.predict)
    (hupd : ∀ t d, P t → P (t.update d))
    (hnew : ∀ d tid, P (mkTrackedObject d tid))
    (hmiss : ∀ t, P t → P t.markMissed)
    (st : TrackerState) (dets : List Detection)
    (hst : ∀ p ∈ st.tracks, P p.2) :
    ∀ p ∈ (trackerUpdate st dets).2.tracks, P p.2 := by
  intro p hp
  simp only [trackerUpdate, trackerCleanup] at hp
  have h1 := (List.mem_filter.mp hp).1
  rcases List.mem_map.mp h1 with ⟨q, hq, hpq⟩
  have hbase : ∀ r ∈ st.tracks.map
      (fun (r : String × TrackedObject) => (r.1, r.2.predict)), P r.2 := by
    intro r hr
    rcases List.mem_map.mp hr with ⟨r0, hr0, hrr⟩
    rw [← hrr]
    exact hpred r0.2 (hst r0 hr0)
  have hq2 : P q.2 := by
    apply forall_mem_foldl_trackerCreate hnew _ _ _ q hq
    exact forall_mem_foldl_trackerUpd hupd _ _ hbase
  rw [← hpq]
  by_cases hin : q.1 ∈ (trackerMatch (st.tracks.map
      (fun (r : String × TrackedObject) => (r.1, r.2.predict))) dets).2.2
  · simp only [if_pos hin]
    exact hmiss q.2 hq2
  · simp only [if_neg hin]
    exact hq2

/-! ## Sticky confirmation (C5) -/

theorem confirmedIff_preserved (s : TrackerState) (dets : List Detection)
    (h : ConfirmedIffHits s) : ConfirmedIffHits (trackerUpdate s dets).2 := by
  apply @trackerUpdate_tracks_forall (fun t => t.isConfirmed = true ↔ 3 ≤ t.hits)
  · intro t ht
    exact ht
  · intro t d ht
    simp only [TrackedObject.update]
    split_ifs with hge
    · simpa using hge
    · constructor
      · intro hc
        have := ht.mp hc
        omega
      · intro hc
        omega
  · intro d tid
    simp [mkTrackedObject]
  · intro t ht
    exact ht
  · exact h

/-- C5: in every reachable tracker state, a track is confirmed exactly
when its hit count has reached the threshold 3 (so the flag flips at the
update on which hits first reaches 3); a matched update increments hits by
exactly one and sets the flag by the `hits ≥ 3` rule, and a miss changes
neither hits nor the flag — hence `confirmed` never reverts. -/
theorem claim_C5 :
    (∀ s, TrackerReachable s → ConfirmedIffHits s) ∧
    (∀ (t : TrackedObject) (d : Detection),
      (t.update d).isConfirmed = (t.isConfirmed || decide (3 ≤ t.hits + 1)) ∧
      (t.update d).hits = t.hits + 1) ∧
    (∀ t : TrackedObject,
      t.markMissed.isConfirmed = t.isConfirmed ∧ t.markMissed.hits = t.hits) := by
  refine ⟨?_, ?_, fun t => ⟨rfl, rfl⟩⟩
  · intro s hs
    induction hs with
    | init => intro p hp; cases hp
    | step s dets _ ih => exact confirmedIff_preserved s dets ih
    | reset s _ _ => intro p hp; cases hp
  · intro t d
    refine ⟨?_, rfl⟩
    simp only [TrackedObject.update]
    split_ifs with h <;> simp [h]

/-- C5 witness: the reachability hypothesis discharged at the concrete
state reached by one update on the fresh tracker. -/
theorem claim_C5_witness : ConfirmedIffHits (trackerUpdate trackerInit [seedDet]).2 :=
  claim_C5.1 (trackerUpdate trackerInit [seedDet]).2
    (TrackerReachable.step trackerInit [seedDet] TrackerReachable.init)

/-! ## Fusion per-track invariant machinery -/

theorem fusionMatchLoop_matched_mem (tracks : List (String × FusedDetection)) :
    ∀ (ds : List Detection) (unTr : List String) (m : String × Detection),
      m ∈ (fusionMatchLoop tracks ds unTr).1 → m.2 ∈ ds := by
  intro ds
  induction ds with
  | nil => intro unTr m hm; cases hm
  | cons d rest ih =>
      intro unTr m hm
      rw [fusionMatchLoop] at hm
      cases hbt : (fusionBestTrack tracks (d.bbox.getD defaultBox) unTr).2 with
      | none =>
          rw [hbt] at hm
          exact List.mem_cons_of_mem d (ih unTr m hm)
      | some tid =>
          rw [hbt] at hm
          rcases List.mem_cons.mp hm with hm1 | hm1
          · rw [hm1]
            exact List.mem_cons_self d rest
          · exact List.mem_cons_of_mem d (ih (unTr.erase tid) m hm1)

theorem fusionMatchLoop_unmatched_mem (tracks : List (String × FusedDetection)) :
    ∀ (ds : List Detection) (unTr : List String) (d : Detection),
      d ∈ (fusionMatchLoop tracks ds unTr).2.1 → d ∈ ds := by
  intro ds
  induction ds with
  | nil => intro unTr d hd; cases hd
  | cons d0 rest ih =>
      intro unTr d hd
      rw [fusionMatchLoop] at hd
      cases hbt : (fusionBestTrack tracks (d0.bbox.getD defaultBox) unTr).2 with
      | none =>
          rw [hbt] at hd
          rcases List.mem_cons.mp hd with hd1 | hd1
          · rw [hd1]
            exact List.mem_cons_self d0 rest
          · exact List.mem_cons_of_mem d0 (ih unTr d hd1)
      | some tid =>
          rw [hbt] at hd
          exact List.mem_cons_of_mem d0 (ih (unTr.erase tid) d hd)

theorem fusionMatchDetections_matched_mem
    {tracks : List (String × FusedDetection)} {ds : List Detection}
    {m : String × Detection} (hm : m ∈ (fusionMatchDetections tracks ds).1) :
    m.2 ∈ ds := by
  rw [fusionMatchDetections] at hm
  split_ifs at hm with h
  · cases hm
  · exact fusionMatchLoop_matched_mem tracks ds _ m hm

theorem fusionMatchDetections_unmatched_mem
    {tracks : List (String × FusedDetection)} {ds : List Detection}
    {d : Detection} (hd : d ∈ (fusionMatchDetections tracks ds).2.1) :
    d ∈ ds := by
  rw [fusionMatchDetections] at hd
  split_ifs at hd with h
  · exact hd
  · exact fusionMatchLoop_unmatched_mem tracks ds _ d hd

theorem fusionUpdateTrack_forall {P : FusedDetection → Prop}
    {K : KalmanFilter → Prop} {GoodD : Detection → Prop}
    (hupd : ∀ track kf det sid, P track → (∀ k, kf = some k → K k) → GoodD det →
      P (fusionUpdatedTrack track kf det sid).1 ∧
      (∀ k, (fusionUpdatedTrack track kf det sid).2 = some k → K k))
    (st : FusionState) (tid : String) (det : Detection) (sid : String)
    (hP : ∀ p ∈ st.tracks, P p.2) (hK : ∀ q ∈ st.kalmanFilters, K q.2)
    (hdet : GoodD det) :
    (∀ p ∈ (fusionUpdateTrack st tid det sid).tracks, P p.2) ∧
    (∀ q ∈ (fusionUpdateTrack st tid det sid).kalmanFilters, K q.2) := by
  rw [fusionUpdateTrack]
  cases hlk : lookupKey st.tracks tid with
  | none => exact ⟨hP, hK⟩
  | some track =>
      have htrack : P track := hP (tid, track) (mem_of_lookupKey hlk)
      have hkfopt : ∀ k, lookupKey st.kalmanFilters tid = some k → K k := by
        intro k hk
        exact hK (tid, k) (mem_of_lookupKey hk)
      obtain ⟨hres1, hres2⟩ :=
        hupd track (lookupKey st.kalmanFilters tid) det sid htrack hkfopt hdet
      constructor
      · exact forall_mem_updateKey hP (fun x _ => hres1)
      · cases hres : (fusionUpdatedTrack track (lookupKey st.kalmanFilters tid)
            det sid).2 with
        | none => simpa [hres] using hK
        | some k =>
            simp only [hres]
            exact forall_mem_updateKey hK (fun x _ => hres2 k hres)

theorem forall_foldl_fusionUpd {P : FusedDetection → Prop}
    {K : KalmanFilter → Prop} {GoodD : Detection → Prop}
    (hupd : ∀ track kf det sid, P track → (∀ k, kf = some k → K k) → GoodD det →
      P (fusionUpdatedTrack track kf det sid).1 ∧
      (∀ k, (fusionUpdatedTrack track kf det sid).2 = some k → K k))
    (sid : String) :
    ∀ (ms : List (String × Detection)) (st : FusionState),
      (∀ p ∈ st.tracks, P p.2) → (∀ q ∈ st.kalmanFilters, K q.2) →
      (∀ m ∈ ms, GoodD m.2) →
      (∀ p ∈ (ms.foldl
          (fun s (m : String × Detection) => fusionUpdateTrack s m.1 m.2 sid)
          st).tracks, P p.2) ∧
      (∀ q ∈ (ms.foldl
          (fun s (m : String × Detection) => fusionUpdateTrack s m.1 m.2 sid)
          st).kalmanFilters, K q.2) := by
  intro ms
  induction ms with
  | nil => intro st hP hK _; exact ⟨hP, hK⟩
  | cons m rest ih =>
      intro st hP hK hms
      rw [List.foldl_cons]
      obtain ⟨hP2, hK2⟩ := fusionUpdateTrack_forall hupd st m.1 m.2 sid hP hK
        (hms m (List.mem_cons_self m rest))
      exact ih _ hP2 hK2 (fun m2 hm2 => hms m2 (List.mem_cons_of_mem m hm2))

theorem forall_foldl_fusionCreate {P : FusedDetection → Prop}
    {K : KalmanFilter → Prop} {GoodD : Detection → Prop}
    (hnew : ∀ det sid tid, GoodD det → P (mkFusedTrack det sid tid))
    (hkfnew : ∀ c0 c1 : ℚ, K { kalmanInit with s0 := c0, s1 := c1 })
    (sid : String) :
    ∀ (ds : List Detection) (st : FusionState),
      (∀ p ∈ st.tracks, P p.2) → (∀ q ∈ st.kalmanFilters, K q.2) →
      (∀ d ∈ ds, GoodD d) →
      (∀ p ∈ (ds.foldl (fun s d => fusionCreateTrack s d sid) st).tracks, P p.2) ∧
      (∀ q ∈ (ds.foldl (fun s d => fusionCreateTrack s d sid) st).kalmanFilters,
        K q.2) := by
  intro ds
  induction ds with
  | nil => intro st hP hK _; exact ⟨hP, hK⟩
  | cons d rest ih =>
      intro st hP hK hds
      rw [List.foldl_cons]
      apply ih
      · exact forall_mem_dictInsert hP
          (hnew d sid (fmtTrackId st.nextTrackId) (hds d (List.mem_cons_self d rest)))
      · exact forall_mem_dictInsert hK (hkfnew _ _)
      · exact fun d2 hd2 => hds d2 (List.mem_cons_of_mem d hd2)

theorem fusionUpdate_state_forall {P : FusedDetection → Prop}
    {K : KalmanFilter → Prop} {GoodD : Detection → Prop}
    (hbump : ∀ t, P t → P { t with ageFrames := t.ageFrames + 1 })
    (hupd : ∀ track kf det sid, P track → (∀ k, kf = some k → K k) → GoodD det →
      P (fusionUpdatedTrack track kf det sid).1 ∧
      (∀ k, (fusionUpdatedTrack track kf det sid).2 = some k → K k))
    (hnew : ∀ det sid tid, GoodD det → P (mkFusedTrack det sid tid))
    (hkfnew : ∀ c0 c1 : ℚ, K { kalmanInit with s0 := c0, s1 := c1 })
    (hkpredict : ∀ k, K k → K (kalmanPredict k kalmanDt))
    (st : FusionState) (reading : SensorReading)
    (hP : ∀ p ∈ st.tracks, P p.2) (hK : ∀ q ∈ st.kalmanFilters, K q.2)
    (hdets : ∀ d ∈ reading.detections, GoodD d) :
    (∀ p ∈ (fusionUpdate st reading).2.tracks, P p.2) ∧
    (∀ q ∈ (fusionUpdate st reading).2.kalmanFilters, K q.2) := by
  have hmatched : ∀ m ∈ (fusionMatchDetections st.tracks reading.detections).1,
      GoodD m.2 :=
    fun m hm => hdets m.2 (fusionMatchDetections_matched_mem hm)
  have hunmatched : ∀ d ∈ (fusionMatchDetections st.tracks reading.detections).2.1,
      GoodD d :=
    fun d hd => hdets d (fusionMatchDetections_unmatched_mem hd)
  obtain ⟨hP1, hK1⟩ := forall_foldl_fusionUpd hupd reading.sensorId
    (fusionMatchDetections st.tracks reading.detections).1
    { st with sensors := sensorsInsert st.sensors reading.sensorId } hP hK hmatched
  obtain ⟨hP2, hK2⟩ := forall_foldl_fusionCreate hnew hkfnew reading.sensorId
    (fusionMatchDetections st.tracks reading.detections).2.1 _ hP1 hK1 hunmatched
  constructor
  · intro p hp
    simp only [fusionUpdate, fusionCleanup, fusionBuildOutput] at hp
    have h1 := (List.mem_filter.mp hp).1
    rcases List.mem_map.mp h1 with ⟨q, hq, hpq⟩
    have hq2 : P q.2 := hP2 q hq
    rw [← hpq]
    split_ifs with hin
    · exact hbump q.2 hq2
    · exact hq2
  · intro q hq
    simp only [fusionUpdate, fusionCleanup, fusionBuildOutput] at hq
    rcases List.mem_map.mp hq with ⟨k0, hk0, hqk⟩
    have hk1 := (List.mem_filter.mp hk0).1
    have hk2 : K k0.2 := hK2 k0 hk1
    rw [← hqk]
    exact hkpredict k0.2 hk2

/-! ## Confidence bounds (C1, continued) -/

theorem goodDet_getD_bounds {det : Detection} (hdet : goodDet det = true) :
    0 ≤ det.confidence.getD (1/2) ∧ det.confidence.getD (1/2) ≤ 1 := by
  rw [goodDet] at hdet
  cases hc : det.confidence with
  | none => norm_num
  | some c =>
      rw [hc] at hdet
      simp only [decide_eq_true_eq] at hdet
      simpa using hdet

theorem rmax_bounds {a b : ℚ} (ha : 0 ≤ a ∧ a ≤ 1) (hb : 0 ≤ b ∧ b ≤ 1) :
    0 ≤ rmax a b ∧ rmax a b ≤ 1 := by
  rw [rmax_eq_max]
  exact ⟨le_max_of_le_left ha.1, max_le ha.2 hb.2⟩

theorem rmin_conf_bounds (n : ℕ) {c : ℚ} (hc : 0 ≤ c) :
    0 ≤ rmin 1 ((n : ℚ) * (3/10) + c * (4/10)) ∧
    rmin 1 ((n : ℚ) * (3/10) + c * (4/10)) ≤ 1 := by
  rw [rmin_eq_min]
  constructor
  · apply le_min zero_le_one
    have hn : (0 : ℚ) ≤ (n : ℚ) := Nat.cast_nonneg n
    nlinarith
  · exact min_le_left 1 _

theorem fusionUpdatedTrack_conf_bounds (track : FusedDetection)
    (kf : Option KalmanFilter) (det : Detection) (sid : String)
    (htr : 0 ≤ track.classConfidence ∧ track.classConfidence ≤ 1 ∧
      0 ≤ track.fusionConfidence ∧ track.fusionConfidence ≤ 1)
    (hdet : goodDet det = true) :
    0 ≤ (fusionUpdatedTrack track kf det sid).1.classConfidence ∧
    (fusionUpdatedTrack track kf det sid).1.classConfidence ≤ 1 ∧
    0 ≤ (fusionUpdatedTrack track kf det sid).1.fusionConfidence ∧
    (fusionUpdatedTrack track kf det sid).1.fusionConfidence ≤ 1 := by
  have hgd := goodDet_getD_bounds hdet
  cases kf with
  | none =>
      simp only [fusionUpdatedTrack]
      have hcc := rmax_bounds ⟨htr.1, htr.2.1⟩ hgd
      have hfc := rmin_conf_bounds
        (if sid ∈ track.sensorSources then track.sensorSources
          else track.sensorSources ++ [sid]).length hcc.1
      exact ⟨hcc.1, hcc.2, hfc.1, hfc.2⟩
  | some k =>
      simp only [fusionUpdatedTrack]
      have hcc := rmax_bounds ⟨htr.1, htr.2.1⟩ hgd
      have hfc := rmin_conf_bounds
        (if sid ∈ track.sensorSources then track.sensorSources
          else track.sensorSources ++ [sid]).length hcc.1
      exact ⟨hcc.1, hcc.2, hfc.1, hfc.2⟩

/-- C1 (amended): provided every submitted detection's confidence field,
when present, lies in `[0, 1]`, every fused track's class confidence and
fusion confidence lie in `[0, 1]` after every `update` call, starting from
the freshly constructed engine. (The unclamped creation path makes the
restriction necessary, as the counterexample shows.) -/
theorem claim_C1_amended :
    ConfBounded fusionInit ∧
    (∀ (st : FusionState) (reading : SensorReading), ConfBounded st →
      (∀ d ∈ reading.detections, goodDet d = true) →
      ConfBounded (fusionUpdate st reading).2) := by
  constructor
  · intro p hp
    cases hp
  · intro st reading hst hdets
    exact (@fusionUpdate_state_forall
      (fun t => 0 ≤ t.classConfidence ∧ t.classConfidence ≤ 1 ∧
        0 ≤ t.fusionConfidence ∧ t.fusionConfidence ≤ 1)
      (fun _ => True) (fun d => goodDet d = true)
      (fun t ht => ht)
      (fun track kf det sid htr _ hdet =>
        ⟨fusionUpdatedTrack_conf_bounds track kf det sid htr hdet,
         fun _ _ => trivial⟩)
      (fun det sid tid hdet => by
        have hgd := goodDet_getD_bounds hdet
        exact ⟨hgd.1, hgd.2, hgd.1, hgd.2⟩)
      (fun _ _ => trivial) (fun _ _ => trivial)
      st reading hst (fun _ _ => trivial) hdets).1

/-- C1 witness: the amended invariant at a concrete in-range reading. -/
theorem claim_C1_witness : ConfBounded (fusionUpdate fusionInit scenA_r1).2 :=
  claim_C1_amended.2 fusionInit scenA_r1 claim_C1_amended.1
    (by with_unfolding_all decide)

/-! ## Zero velocity (C10) -/

theorem fusionUpdatedTrack_zero_velocity (track : FusedDetection)
    (kf : Option KalmanFilter) (det : Detection) (sid : String)
    (htr : track.velocity = none ∨ track.velocity = some (0, 0, 0))
    (hkf : ∀ k, kf = some k → k.s2 = 0 ∧ k.s3 = 0) :
    ((fusionUpdatedTrack track kf det sid).1.velocity = none ∨
      (fusionUpdatedTrack track kf det sid).1.velocity = some (0, 0, 0)) ∧
    (∀ k, (fusionUpdatedTrack track kf det sid).2 = some k →
      k.s2 = 0 ∧ k.s3 = 0) := by
  cases kf with
  | none =>
      simp only [fusionUpdatedTrack]
      exact ⟨htr, fun k hk => by cases hk⟩
  | some k0 =>
      obtain ⟨h2, h3⟩ := hkf k0 rfl
      simp only [fusionUpdatedTrack, kalmanUpdate]
      constructor
      · right
        simp [h2, h3]
      · intro k hk
        rw [← Option.some.injEq] at hk
        simp only [Option.some.injEq] at hk
        rw [← hk]
        exact ⟨h2, h3⟩

theorem fusionZeroVelocity_preserved (st : FusionState) (reading : SensorReading)
    (h : FusionZeroVelocity st) : FusionZeroVelocity (fusionUpdate st reading).2 := by
  obtain ⟨hkf, htr⟩ := h
  have hres := @fusionUpdate_state_forall
    (fun t => t.velocity = none ∨ t.velocity = some (0, 0, 0))
    (fun k => k.s2 = 0 ∧ k.s3 = 0) (fun _ => True)
    (fun t ht => ht)
    (fun track kf det sid htr0 hkf0 _ =>
      fusionUpdatedTrack_zero_velocity track kf det sid htr0 hkf0)
    (fun det sid tid _ => Or.inl rfl)
    (fun c0 c1 => ⟨rfl, rfl⟩)
    (fun k hk => hk)
    st reading htr hkf (fun _ _ => trivial)
  exact ⟨hres.2, hres.1⟩

/-- C10: in every reachable fusion state, every Kalman filter carries zero
velocity (`vx = vy = 0`) and every track reports either no velocity or the
zero vector; the filter's `update` never modifies the velocity components,
and on a zero-velocity filter `predict` changes nothing, so the predict
step never moves a track's position. -/
theorem claim_C10 :
    (∀ s, FusionReachable s → FusionZeroVelocity s) ∧
    (∀ (kf : KalmanFilter) (mx my : ℚ),
      (kalmanUpdate kf mx my).s2 = kf.s2 ∧ (kalmanUpdate kf mx my).s3 = kf.s3) ∧
    (∀ kf : KalmanFilter, kf.s2 = 0 → kf.s3 = 0 → ∀ dt, kalmanPredict kf dt = kf) := by
  refine ⟨?_, fun kf mx my => ⟨rfl, rfl⟩, ?_⟩
  · intro s hs
    induction hs with
    | init =>
        constructor
        · intro q hq; cases hq
        · intro p hp; cases hp
    | register s sid _ ih => exact ih
    | step s reading _ ih => exact fusionZeroVelocity_preserved s reading ih
  · intro kf h2 h3 dt
    cases kf
    simp only [kalmanPredict]
    simp_all

/-- C10 witness: the reachability hypothesis discharged at the concrete
state after one reading, and the predict identity at a concrete filter. -/
theorem claim_C10_witness :
    FusionZeroVelocity scenA_s1 ∧
    kalmanPredict { kalmanInit with s0 := 20, s1 := 20 } kalmanDt =
      { kalmanInit with s0 := 20, s1 := 20 } :=
  ⟨claim_C10.1 scenA_s1
      (FusionReachable.step fusionInit scenA_r1 FusionReachable.init),
   claim_C10.2.2 { kalmanInit with s0 := 20, s1 := 20 } rfl rfl kalmanDt⟩

/-! ## Injectivity of the id formats (C9) -/

theorem digitChar_inj_fin : ∀ a b : Fin 10, digitChar a.1 = digitChar b.1 → a = b := by
  decide

theorem digitChar_inj {a b : ℕ} (ha : a < 10) (hb : b < 10)
    (h : digitChar a = digitChar b) : a = b :=
  congrArg Fin.val (digitChar_inj_fin ⟨a, ha⟩ ⟨b, hb⟩ h)

theorem map_digitChar_inj : ∀ xs ys : List ℕ, (∀ x ∈ xs, x < 10) →
    (∀ y ∈ ys, y < 10) → xs.map digitChar = ys.map digitChar → xs = ys := by
  intro xs
  induction xs with
  | nil =>
      intro ys _ _ h
      cases ys with
      | nil => rfl
      | cons y ys2 => simp at h
  | cons x xs2 ih =>
      intro ys hx hy h
      cases ys with
      | nil => simp at h
      | cons y ys2 =>
          simp only [List.map_cons, List.cons.injEq] at h
          rw [digitChar_inj (hx x (List.mem_cons_self x xs2))
              (hy y (List.mem_cons_self y ys2)) h.1,
            ih ys2 (fun a ha => hx a (List.mem_cons_of_mem x ha))
              (fun a ha => hy a (List.mem_cons_of_mem y ha)) h.2]

theorem natCharsRev_eq : ∀ fuel n : ℕ, n ≤ fuel →
    natCharsRev fuel n = (Nat.digits 10 n).map digitChar := by
  intro fuel
  induction fuel with
  | zero =>
      intro n hn
      have hz : n = 0 := Nat.le_zero.mp hn
      subst hz
      simp [natCharsRev]
  | succ fuel2 ih =>
      intro n hn
      rw [natCharsRev]
      by_cases h0 : n = 0
      · subst h0; simp
      · rw [if_neg h0,
          Nat.digits_def' (by norm_num : (1:ℕ) < 10) (Nat.pos_of_ne_zero h0),
          List.map_cons]
        congr 1
        apply ih
        have hdiv : n / 10 < n := Nat.div_lt_self (Nat.pos_of_ne_zero h0) (by norm_num)
        omega

theorem natChars_eq (n : ℕ) :
    natChars n = ((Nat.digits 10 n).map digitChar).reverse := by
  rw [natChars, natCharsRev_eq n n le_rfl]

theorem natChars_inj {m n : ℕ} (h : natChars m = natChars n) : m = n := by
  rw [natChars_eq, natChars_eq, List.reverse_inj] at h
  have hdig := map_digitChar_inj _ _
    (fun x hx => Nat.digits_lt_base (by norm_num) hx)
    (fun y hy => Nat.digits_lt_base (by norm_num) hy) h
  have h1 := Nat.ofDigits_digits 10 m
  have h2 := Nat.ofDigits_digits 10 n
  rw [← h1, ← h2, hdig]

theorem natChars_head_ne_zero {n : ℕ} (hn : n ≠ 0) {c : Char} {cs : List Char}
    (h : natChars n = c :: cs) : c ≠ '0' := by
  have hne : Nat.digits 10 n ≠ [] := Nat.digits_ne_nil_iff_ne_zero.mpr hn
  have hlast := Nat.getLast_digit_ne_zero 10 hn
  have hh : (natChars n).head? = some c := by rw [h]; rfl
  rw [natChars_eq, List.head?_reverse, List.getLast?_map,
    List.getLast?_eq_getLast_of_ne_nil hne, Option.map_some'] at hh
  have hc : digitChar ((Nat.digits 10 n).getLast hne) = c := Option.some.inj hh
  intro hc0
  apply hlast
  have hlt : (Nat.digits 10 n).getLast hne < 10 :=
    Nat.digits_lt_base (by norm_num) (List.getLast_mem hne)
  apply digitChar_inj hlt (by norm_num)
  rw [hc, hc0]
  rfl

theorem padNum_drop_clash {width m n : ℕ} (hn : n ≠ 0)
    (hlt : (natChars m).length < (natChars n).length)
    (hw : (natChars n).length ≤ width)
    (h : padNum width m = padNum width n) : False := by
  have hd := congrArg (List.drop (width - (natChars n).length)) h
  simp only [padNum, List.drop_append_eq_append_drop, List.drop_replicate,
    List.length_replicate] at hd
  have e1 : width - (natChars n).length - (width - (natChars m).length) = 0 := by
    omega
  have e2 : width - (natChars n).length - (width - (natChars n).length) = 0 :=
    Nat.sub_self _
  rw [e1, e2, List.drop_zero, List.drop_zero, List.replicate_zero,
    List.nil_append] at hd
  obtain ⟨j, hj⟩ :
      ∃ j, width - (natChars m).length - (width - (natChars n).length) = j + 1 :=
    ⟨width - (natChars m).length - (width - (natChars n).length) - 1, by omega⟩
  rw [hj, List.replicate_succ, List.cons_append] at hd
  exact natChars_head_ne_zero hn hd.symm rfl

theorem padNum_inj {width m n : ℕ} (hm : m ≠ 0) (hn : n ≠ 0)
    (h : padNum width m = padNum width n) : m = n := by
  have hlen := congrArg List.length h
  simp only [padNum, List.length_append, List.length_replicate] at hlen
  rcases lt_trichotomy (natChars m).length (natChars n).length with hlt | heq | hlt
  · exact absurd h (by intro hcon; exact padNum_drop_clash hn hlt (by omega) hcon)
  · apply natChars_inj
    simp only [padNum] at h
    refine List.append_inj_right h ?_
    simp [heq]
  · exact absurd h.symm
      (by intro hcon; exact padNum_drop_clash hm hlt (by omega) hcon)

theorem fmtTrackId_inj {m n : ℕ} (hm : 1 ≤ m) (hn : 1 ≤ n)
    (h : fmtTrackId m = fmtTrackId n) : m = n := by
  have hdata := congrArg String.data h
  simp only [fmtTrackId, List.cons.injEq, true_and] at hdata
  exact padNum_inj (by omega) (by omega) hdata

theorem fmtObjId_inj {m n : ℕ} (hm : 1 ≤ m) (hn : 1 ≤ n)
    (h : fmtObjId m = fmtObjId n) : m = n := by
  have hdata := congrArg String.data h
  simp only [fmtObjId, List.cons.injEq, true_and] at hdata
  exact padNum_inj (by omega) (by omega) hdata

/-! ## Key bookkeeping (C9, continued) -/

theorem map_fst_of_preserving {α β : Type} (l : List (String × α))
    (f : String × α → String × β) (hf : ∀ p, (f p).1 = p.1) :
    (l.map f).map Prod.fst = l.map Prod.fst := by
  rw [List.map_map]
  exact List.map_congr_left (fun p _ => hf p)

theorem keysFormatted_of_sublist {fmt : ℕ → String} {keys keys2 : List String}
    {next : ℕ} (hsub : keys2.Sublist keys) (h : KeysFormatted fmt keys next) :
    KeysFormatted fmt keys2 next :=
  ⟨h.1.sublist hsub, h.2.1, fun k hk => h.2.2 k (hsub.subset hk)⟩

theorem keysFormatted_next_mono {fmt : ℕ → String} {keys : List String}
    {next next2 : ℕ} (hle : next ≤ next2) (h : KeysFormatted fmt keys next) :
    KeysFormatted fmt keys next2 := by
  refine ⟨h.1, le_trans h.2.1 hle, fun k hk => ?_⟩
  obtain ⟨i, hi1, hi2, hi3⟩ := h.2.2 k hk
  exact ⟨i, hi1, by omega, hi3⟩

theorem keysFormatted_fresh {fmt : ℕ → String}
    (hinj : ∀ a b, 1 ≤ a → 1 ≤ b → fmt a = fmt b → a = b)
    {keys : List String} {next : ℕ} (h : KeysFormatted fmt keys next) :
    fmt next ∉ keys := by
  intro hin
  obtain ⟨i, hi1, hi2, hi3⟩ := h.2.2 (fmt next) hin
  have := hinj i next hi1 h.2.1 hi3.symm
  omega

theorem keysFormatted_append {fmt : ℕ → String}
    (hinj : ∀ a b, 1 ≤ a → 1 ≤ b → fmt a = fmt b → a = b)
    {keys : List String} {next : ℕ} (h : KeysFormatted fmt keys next) :
    KeysFormatted fmt (keys ++ [fmt next]) (next + 1) := by
  refine ⟨?_, by omega, ?_⟩
  · rw [List.nodup_append]
    refine ⟨h.1, List.nodup_singleton _, ?_⟩
    intro a ha hb
    rw [List.mem_singleton] at hb
    rw [hb] at ha
    exact keysFormatted_fresh hinj h ha
  · intro k hk
    rcases List.mem_append.mp hk with hk1 | hk1
    · obtain ⟨i, hi1, hi2, hi3⟩ := h.2.2 k hk1
      exact ⟨i, hi1, by omega, hi3⟩
    · rw [List.mem_singleton] at hk1
      exact ⟨next, h.2.1, by omega, hk1⟩

theorem fusionUpdateTrack_keys (st : FusionState) (tid : String)
    (det : Detection) (sid : String) :
    (fusionUpdateTrack st tid det sid).tracks.map Prod.fst =
      st.tracks.map Prod.fst ∧
    (fusionUpdateTrack st tid det sid).nextTrackId = st.nextTrackId := by
  rw [fusionUpdateTrack]
  cases lookupKey st.tracks tid with
  | none => exact ⟨rfl, rfl⟩
  | some track => exact ⟨updateKey_map_fst _ _ _, rfl⟩

theorem foldl_fusionUpd_keys (sid : String) :
    ∀ (ms : List (String × Detection)) (st : FusionState),
      ((ms.foldl
          (fun s (m : String × Detection) => fusionUpdateTrack s m.1 m.2 sid)
          st).tracks.map Prod.fst = st.tracks.map Prod.fst) ∧
      ((ms.foldl
          (fun s (m : String × Detection) => fusionUpdateTrack s m.1 m.2 sid)
          st).nextTrackId = st.nextTrackId) := by
  intro ms
  induction ms with
  | nil => intro st; exact ⟨rfl, rfl⟩
  | cons m rest ih =>
      intro st
      rw [List.foldl_cons]
      obtain ⟨h1, h2⟩ := ih (fusionUpdateTrack st m.1 m.2 sid)
      obtain ⟨h3, h4⟩ := fusionUpdateTrack_keys st m.1 m.2 sid
      exact ⟨h1.trans h3, h2.trans h4⟩

theorem fusionCreateTrack_idInv (st : FusionState) (det : Detection)
    (sid : String) (h : FusionIdInv st) :
    FusionIdInv (fusionCreateTrack st det sid) := by
  rw [FusionIdInv] at h ⊢
  have hfresh : fmtTrackId st.nextTrackId ∉ st.tracks.map Prod.fst :=
    keysFormatted_fresh (fun a b ha hb => fmtTrackId_inj ha hb) h
  have hins := dictInsert_of_not_mem hfresh
    (mkFusedTrack det sid (fmtTrackId st.nextTrackId))
  rw [fusionCreateTrack]
  simp only [hins, List.map_append, List.map_cons, List.map_nil]
  exact keysFormatted_append (fun a b ha hb => fmtTrackId_inj ha hb) h

theorem foldl_fusionCreate_idInv (sid : String) :
    ∀ (ds : List Detection) (st : FusionState), FusionIdInv st →
      FusionIdInv (ds.foldl (fun s d => fusionCreateTrack s d sid) st) := by
  intro ds
  induction ds with
  | nil => intro st h; exact h
  | cons d rest ih =>
      intro st h
      rw [List.foldl_cons]
      exact ih _ (fusionCreateTrack_idInv st d sid h)

theorem foldl_fusionCreate_next_mono (sid : String) :
    ∀ (ds : List Detection) (st : FusionState),
      st.nextTrackId ≤
        (ds.foldl (fun s d => fusionCreateTrack s d sid) st).nextTrackId := by
  intro ds
  induction ds with
  | nil => intro st; exact le_refl _
  | cons d rest ih =>
      intro st
      rw [List.foldl_cons]
      have h1 := ih (fusionCreateTrack st d sid)
      have h2 : (fusionCreateTrack st d sid).nextTrackId = st.nextTrackId + 1 := rfl
      omega

theorem fusionIdInv_preserved (st : FusionState) (reading : SensorReading)
    (h : FusionIdInv st) : FusionIdInv (fusionUpdate st reading).2 := by
  have h0 : FusionIdInv
      { st with sensors := sensorsInsert st.sensors reading.sensorId } := h
  obtain ⟨hk1, hn1⟩ := foldl_fusionUpd_keys reading.sensorId
    (fusionMatchDetections st.tracks reading.detections).1
    { st with sensors := sensorsInsert st.sensors reading.sensorId }
  have h1 : FusionIdInv
      ((fusionMatchDetections st.tracks reading.detections).1.foldl
        (fun s (m : String × Detection) =>
          fusionUpdateTrack s m.1 m.2 reading.sensorId)
        { st with sensors := sensorsInsert st.sensors reading.sensorId }) := by
    rw [FusionIdInv, hk1, hn1]
    exact h0
  have h2 := foldl_fusionCreate_idInv reading.sensorId
    (fusionMatchDetections st.tracks reading.detections).2.1 _ h1
  rw [FusionIdInv]
  show KeysFormatted fmtTrackId
    ((fusionCleanup _).tracks.map Prod.fst) (fusionCleanup _).nextTrackId
  have hage := map_fst_of_preserving
    ((fusionMatchDetections st.tracks reading.detections).2.1.foldl
      (fun s d => fusionCreateTrack s d reading.sensorId)
      ((fusionMatchDetections st.tracks reading.detections).1.foldl
        (fun s (m : String × Detection) =>
          fusionUpdateTrack s m.1 m.2 reading.sensorId)
        { st with sensors := sensorsInsert st.sensors reading.sensorId })).tracks
    (fun p =>
      if p.1 ∈ (fusionMatchDetections st.tracks reading.detections).2.2 then
        (p.1, { p.2 with ageFrames := p.2.ageFrames + 1 })
      else p)
    (fun p => by dsimp only; split_ifs <;> rfl)
  apply keysFormatted_of_sublist ((List.filter_sublist _).map Prod.fst)
  rw [hage]
  exact h2

theorem fusionUpdate_next_mono (st : FusionState) (reading : SensorReading) :
    st.nextTrackId ≤ (fusionUpdate st reading).2.nextTrackId := by
  have h1 := (foldl_fusionUpd_keys reading.sensorId
    (fusionMatchDetections st.tracks reading.detections).1
    { st with sensors := sensorsInsert st.sensors reading.sensorId }).2
  have h2 := foldl_fusionCreate_next_mono reading.sensorId
    (fusionMatchDetections st.tracks reading.detections).2.1
    ((fusionMatchDetections st.tracks reading.detections).1.foldl
      (fun s (m : String × Detection) =>
        fusionUpdateTrack s m.1 m.2 reading.sensorId)
      { st with sensors := sensorsInsert st.sensors reading.sensorId })
  have h0 : ({ st with sensors := sensorsInsert st.sensors reading.sensorId } :
      FusionState).nextTrackId = st.nextTrackId := rfl
  have key : (fusionUpdate st reading).2.nextTrackId =
      ((fusionMatchDetections st.tracks reading.detections).2.1.foldl
        (fun s d => fusionCreateTrack s d reading.sensorId)
        ((fusionMatchDetections st.tracks reading.detections).1.foldl
          (fun s (m : String × Detection) =>
            fusionUpdateTrack s m.1 m.2 reading.sensorId)
          { st with sensors := sensorsInsert st.sensors reading.sensorId })).nextTrackId :=
    rfl
  rw [key]
  omega

theorem foldl_trackerUpd_map_fst :
    ∀ (ms : List (String × Detection)) (ts : List (String × TrackedObject)),
      (ms.foldl
        (fun ts (m : String × Detection) =>
          updateKey ts m.1 (fun t => t.update m.2)) ts).map Prod.fst =
      ts.map Prod.fst := by
  intro ms
  induction ms with
  | nil => intro ts; rfl
  | cons m rest ih =>
      intro ts
      rw [List.foldl_cons, ih, updateKey_map_fst]

theorem trackerCreateTrack_idInv (st : TrackerState) (det : Detection)
    (h : TrackerIdInv st) : TrackerIdInv (trackerCreateTrack st det) := by
  rw [TrackerIdInv] at h ⊢
  have hfresh : fmtObjId st.nextId ∉ st.tracks.map Prod.fst :=
    keysFormatted_fresh (fun a b ha hb => fmtObjId_inj ha hb) h
  have hins := dictInsert_of_not_mem hfresh (mkTrackedObject det (fmtObjId st.nextId))
  rw [trackerCreateTrack]
  simp only [hins, List.map_append, List.map_cons, List.map_nil]
  exact keysFormatted_append (fun a b ha hb => fmtObjId_inj ha hb) h

theorem foldl_trackerCreate_idInv :
    ∀ (ds : List Detection) (st : TrackerState), TrackerIdInv st →
      TrackerIdInv (ds.foldl (fun s d => trackerCreateTrack s d) st) := by
  intro ds
  induction ds with
  | nil => intro st h; exact h
  | cons d rest ih =>
      intro st h
      rw [List.foldl_cons]
      exact ih _ (trackerCreateTrack_idInv st d h)

theorem foldl_trackerCreate_next_mono :
    ∀ (ds : List Detection) (st : TrackerState),
      st.nextId ≤ (ds.foldl (fun s d => trackerCreateTrack s d) st).nextId := by
  intro ds
  induction ds with
  | nil => intro st; exact le_refl _
  | cons d rest ih =>
      intro st
      rw [List.foldl_cons]
      have h1 := ih (trackerCreateTrack st d)
      have h2 : (trackerCreateTrack st d).nextId = st.nextId + 1 := rfl
      omega

theorem trackerIdInv_preserved (st : TrackerState) (dets : List Detection)
    (h : TrackerIdInv st) : TrackerIdInv (trackerUpdate st dets).2 := by
  have hpredkeys := map_fst_of_preserving st.tracks
    (fun (p : String × TrackedObject) => (p.1, p.2.predict)) (fun p => rfl)
  have h0 : TrackerIdInv { st with
      tracks := st.tracks.map
        (fun (p : String × TrackedObject) => (p.1, p.2.predict)) } := by
    rw [TrackerIdInv]
    show KeysFormatted fmtObjId
      ((st.tracks.map
        (fun (p : String × TrackedObject) => (p.1, p.2.predict))).map Prod.fst)
      st.nextId
    rw [hpredkeys]
    exact h
  have h1 : TrackerIdInv { st with
      tracks := (trackerMatch (st.tracks.map
          (fun (p : String × TrackedObject) => (p.1, p.2.predict))) dets).1.foldl
        (fun ts (m : String × Detection) =>
          updateKey ts m.1 (fun t => t.update m.2))
        (st.tracks.map
          (fun (p : String × TrackedObject) => (p.1, p.2.predict))) } := by
    rw [TrackerIdInv]
    show KeysFormatted fmtObjId
      (((trackerMatch (st.tracks.map
          (fun (p : String × TrackedObject) => (p.1, p.2.predict))) dets).1.foldl
        (fun ts (m : String × Detection) =>
          updateKey ts m.1 (fun t => t.update m.2))
        (st.tracks.map
          (fun (p : String × TrackedObject) => (p.1, p.2.predict)))).map Prod.fst)
      st.nextId
    rw [foldl_trackerUpd_map_fst, hpredkeys]
    exact h
  have h2 := foldl_trackerCreate_idInv
    (trackerMatch (st.tracks.map
      (fun (p : String × TrackedObject) => (p.1, p.2.predict))) dets).2.1 _ h1
  rw [TrackerIdInv]
  show KeysFormatted fmtObjId
    ((trackerCleanup _).tracks.map Prod.fst) (trackerCleanup _).nextId
  have hage := map_fst_of_preserving
    ((trackerMatch (st.tracks.map
        (fun (p : String × TrackedObject) => (p.1, p.2.predict))) dets).2.1.foldl
      (fun s d => trackerCreateTrack s d)
      { st with
        tracks := (trackerMatch (st.tracks.map
            (fun (p : String × TrackedObject) => (p.1, p.2.predict))) dets).1.foldl
          (fun ts (m : String × Detection) =>
            updateKey ts m.1 (fun t => t.update m.2))
          (st.tracks.map
            (fun (p : String × TrackedObject) => (p.1, p.2.predict))) }).tracks
    (fun (p : String × TrackedObject) =>
      if p.1 ∈ (trackerMatch (st.tracks.map
          (fun (p : String × TrackedObject) => (p.1, p.2.predict))) dets).2.2 then
        (p.1, p.2.markMissed)
      else p)
    (fun p => by dsimp only; split_ifs <;> rfl)
  apply keysFormatted_of_sublist ((List.filter_sublist _).map Prod.fst)
  rw [hage]
  exact h2

theorem trackerUpdate_next_mono (st : TrackerState) (dets : List Detection) :
    st.nextId ≤ (trackerUpdate st dets).2.nextId := by
  have h2 := foldl_trackerCreate_next_mono
    (trackerMatch (st.tracks.map
      (fun (p : String × TrackedObject) => (p.1, p.2.predict))) dets).2.1
    { st with
      tracks := (trackerMatch (st.tracks.map
          (fun (p : String × TrackedObject) => (p.1, p.2.predict))) dets).1.foldl
        (fun ts (m : String × Detection) =>
          updateKey ts m.1 (fun t => t.update m.2))
        (st.tracks.map
          (fun (p : String × TrackedObject) => (p.1, p.2.predict))) }
  have h0 : ({ st with
      tracks := (trackerMatch (st.tracks.map
          (fun (p : String × TrackedObject) => (p.1, p.2.predict))) dets).1.foldl
        (fun ts (m : String × Detection) =>
          updateKey ts m.1 (fun t => t.update m.2))
        (st.tracks.map
          (fun (p : String × TrackedObject) => (p.1, p.2.predict))) } :
      TrackerState).nextId = st.nextId := rfl
  have key : (trackerUpdate st dets).2.nextId =
      ((trackerMatch (st.tracks.map
          (fun (p : String × TrackedObject) => (p.1, p.2.predict))) dets).2.1.foldl
        (fun s d => trackerCreateTrack s d)
        { st with
          tracks := (trackerMatch (st.tracks.map
              (fun (p : String × TrackedObject) => (p.1, p.2.predict))) dets).1.foldl
            (fun ts (m : String × Detection) =>
              updateKey ts m.1 (fun t => t.update m.2))
            (st.tracks.map
              (fun (p : String × TrackedObject) => (p.1, p.2.predict))) }).nextId :=
    rfl
  rw [key]
  omega

/-- C9 (amended): Fusion Engine track ids are unique and never reused for
the lifetime of the instance: in every reachable state the live keys are
distinct ids `fmtTrackId i` allocated strictly below the counter, the
counter never decreases across `update`, and the id format is injective.
The tracker satisfies the same invariants under `update` — so its ids are
unique between resets — but `tracker.reset()` restarts the counter at 1,
so tracker ids are reused across resets (see the counterexample). -/
theorem claim_C9_amended :
    (∀ s, FusionReachable s → FusionIdInv s) ∧
    (∀ (s : FusionState) (reading : SensorReading),
      s.nextTrackId ≤ (fusionUpdate s reading).2.nextTrackId) ∧
    (∀ m n : ℕ, 1 ≤ m → 1 ≤ n → fmtTrackId m = fmtTrackId n → m = n) ∧
    TrackerIdInv trackerInit ∧
    (∀ (s : TrackerState) (ds : List Detection),
      TrackerIdInv s → TrackerIdInv (trackerUpdate s ds).2) ∧
    (∀ (s : TrackerState) (ds : List Detection),
      s.nextId ≤ (trackerUpdate s ds).2.nextId) ∧
    (∀ m n : ℕ, 1 ≤ m → 1 ≤ n → fmtObjId m = fmtObjId n → m = n) ∧
    (∀ s : TrackerState, (trackerReset s).nextId = 1) := by
  refine ⟨?_, fusionUpdate_next_mono, fun m n hm hn => fmtTrackId_inj hm hn,
    ⟨List.nodup_nil, le_refl 1, fun k hk => absurd hk (List.not_mem_nil k)⟩,
    trackerIdInv_preserved, trackerUpdate_next_mono,
    fun m n hm hn => fmtObjId_inj hm hn, fun s => rfl⟩
  intro s hs
  induction hs with
  | init =>
      exact ⟨List.nodup_nil, le_refl 1, fun k hk => absurd hk (List.not_mem_nil k)⟩
  | register s sid _ ih => exact ih
  | step s reading _ ih => exact fusionIdInv_preserved s reading ih

/-- C9 witness: the invariants instantiated at concrete reachable states,
and the injectivity of the formats at a concrete index. -/
theorem claim_C9_witness :
    FusionIdInv scenA_s1 ∧
    TrackerIdInv (trackerUpdate trackerInit [seedDet]).2 ∧
    (2 : ℕ) = 2 :=
  ⟨claim_C9_amended.1 scenA_s1
      (FusionReachable.step fusionInit scenA_r1 FusionReachable.init),
   claim_C9_amended.2.2.2.2.1 trackerInit [seedDet] claim_C9_amended.2.2.2.1,
   claim_C9_amended.2.2.1 2 2 (by norm_num) (by norm_num) rfl⟩

end Sensors
